import Mathlib

/-
  Verification of the dynamic sparse graph container in `Graph.h`.

  The C++ code stores `Vertex` and `Edge` objects on the heap behind
  `std::shared_ptr`, identifies them by address, and keeps a
  `std::unordered_map<Key, shared_ptr<Vertex>>` plus a running `size`
  counter inside `Graph`.

  Shallow embedding used here:
  * heap addresses become natural-number ids handed out by an allocation
    counter `nextId` (fresh ids are never reused, exactly as distinct
    live allocations have distinct addresses);
  * the vertex heap and the edge heap are association lists from id to
    object; a vertex object holds the `edges` vector (a list of edge
    ids, in vector order) and its `data`; an edge object holds its two
    incident vertex ids (`vertices.at(0)` / `vertices.at(1)`) and its
    `data`;
  * the `unordered_map` is an association list from key to vertex id
    (iteration order of an `unordered_map` is unspecified, so any fixed
    order is a legitimate model; all properties proved below that
    depend on a scan of the map have a unique match, so the chosen
    order is irrelevant);
  * key, vertex-payload and edge-payload types are taken to be `Nat`
    (the template parameters are opaque to the container);
  * a fatal outcome (failed `assert`, or `unordered_map::at` on a
    missing key) is `Except.error s` where `s` is the state at the
    moment of the failure, so "fails before any mutation" is the
    statement `s = initial state`; the two `std::find` calls whose
    failure would make the source write through an end iterator
    (undefined behaviour) also exit with `Except.error` carrying the
    state reached at that point.
-/

set_option maxHeartbeats 1000000

namespace GraphSpec

/-- `struct Vertex` (Graph.h, lines 21-36): the `edges` vector holds
references (here: ids) of the incident edges, `data` is the payload. -/
structure Vertex where
  edges : List Nat
  data : Nat
deriving DecidableEq, Repr

/-- `struct Edge` (Graph.h, lines 46-63): `v0` and `v1` are the two
entries of the `vertices` array (`vertices.at(0)` and `vertices.at(1)`),
as vertex ids; `data` is the payload. -/
structure Edge where
  v0 : Nat
  v1 : Nat
  data : Nat
deriving DecidableEq, Repr

/-- `class Graph` (Graph.h, lines 78-314): `vertices` is the
`unordered_map<Key, shared_ptr<Vertex>>` as an association list from key
to vertex id, `size` is the running count.  `vheap`/`eheap` model the
heap of `Vertex`/`Edge` objects, addressed by id, and `nextId` is the
allocation counter (all allocated ids are below it). -/
structure Graph where
  vertices : List (Nat × Nat)
  vheap : List (Nat × Vertex)
  eheap : List (Nat × Edge)
  size : Nat
  nextId : Nat
deriving DecidableEq, Repr

/-- Lookup in an association list: the entry for key `k`, if present
(models `unordered_map::at` / pointer dereference). -/
def assocFind (k : Nat) : List (Nat × α) → Option α
  | [] => none
  | p :: rest => if p.1 = k then some p.2 else assocFind k rest

/-- Update the object stored at key `k` in place (models a write through
a pointer: the keyed object is replaced, everything else untouched). -/
def assocUpdate (k : Nat) (f : α → α) (l : List (Nat × α)) : List (Nat × α) :=
  l.map (fun p => if p.1 = k then (p.1, f p.2) else p)

/-- `unordered_map::erase(key)`: drop the entry with key `k`. -/
def assocErase (k : Nat) (l : List (Nat × α)) : List (Nat × α) :=
  l.filter (fun p => p.1 ≠ k)

/-- `unordered_map::count`-style membership test. -/
def mapContains (k : Nat) (l : List (Nat × α)) : Bool :=
  (assocFind k l).isSome

/-- Default constructor (Graph.h, lines 108-112): empty map, size 0. -/
def emptyGraph : Graph :=
  { vertices := [], vheap := [], eheap := [], size := 0, nextId := 0 }

/-- `Graph::addVertex` (Graph.h, lines 137-146): allocate a fresh
`Vertex` with no edges, `vertices.insert({key, new_vertex})` (which does
NOT overwrite an existing entry: on a duplicate key the map is unchanged
and the new vertex is dropped), then `++size` unconditionally. -/
def addVertex (g : Graph) (key : Nat) (data : Nat) : Graph :=
  let vid := g.nextId
  if mapContains key g.vertices then
    { g with size := g.size + 1, nextId := g.nextId + 1 }
  else
    { vertices := (key, vid) :: g.vertices
      vheap := (vid, { edges := [], data := data }) :: g.vheap
      eheap := g.eheap
      size := g.size + 1
      nextId := g.nextId + 1 }

/-- `Graph::addEdge` (Graph.h, lines 156-171): `assert(key_0 != key_1)`;
`at(key_0)`/`at(key_1)` (fatal if absent); allocate the edge with the two
vertices in insertion order; `push_back` it onto both vertices' edge
vectors. -/
def addEdge (g : Graph) (key0 key1 : Nat) (data : Nat) : Except Graph Graph :=
  if key0 = key1 then .error g else
    match assocFind key0 g.vertices, assocFind key1 g.vertices with
    | some v0, some v1 =>
      let eid := g.nextId
      let h1 := assocUpdate v0 (fun vtx => { vtx with edges := vtx.edges ++ [eid] }) g.vheap
      let h2 := assocUpdate v1 (fun vtx => { vtx with edges := vtx.edges ++ [eid] }) h1
      .ok { g with
            vheap := h2
            eheap := (eid, { v0 := v0, v1 := v1, data := data }) :: g.eheap
            nextId := g.nextId + 1 }
    | _, _ => .error g

/-- `Graph::getVertex` (Graph.h, lines 179-182): `at(key)`; the returned
reference is the vertex's identity (its id). -/
def getVertex (g : Graph) (key : Nat) : Option Nat :=
  assocFind key g.vertices

/-- The scan condition of `getEdge`/`removeEdge` (Graph.h, lines 202-204
and 292-294): the loop stops at the first edge whose `vertices.at(0)` or
`vertices.at(1)` equals the target vertex. -/
def edgeTouches (g : Graph) (eid : Nat) (target : Nat) : Bool :=
  match assocFind eid g.eheap with
  | some e => e.v0 == target || e.v1 == target
  | none => false

/-- The linear scan of a vector: index of the first element satisfying
`p` (models the `while` loops advancing an iterator from `begin()`, and
`std::find`). -/
def scanIdx (p : Nat → Bool) : List Nat → Option Nat
  | [] => none
  | x :: rest => if p x then some 0 else (scanIdx p rest).map (· + 1)

/-- `Graph::getEdge` (Graph.h, lines 192-212): `assert(key_0 != key_1)`;
`at` both keys; scan `key_0`'s vertex's edge vector for the first edge
incident to `key_1`'s vertex; `assert` one was found; return it (its id). -/
def getEdge (g : Graph) (key0 key1 : Nat) : Option Nat :=
  if key0 = key1 then none else
    match assocFind key0 g.vertices, assocFind key1 g.vertices with
    | some v0, some v1 =>
      match assocFind v0 g.vheap with
      | some vtx => (scanIdx (fun eid => edgeTouches g eid v1) vtx.edges).bind
          (fun i => vtx.edges[i]?)
      | none => none
    | _, _ => none

/-- `Graph::getKey` (Graph.h, lines 219-232): scan the whole vertex map
for the entry whose stored vertex is the given one (by identity);
`assert` it was found; return its key. -/
def getKey (g : Graph) (vid : Nat) : Option Nat :=
  (g.vertices.find? (fun p => p.2 == vid)).map Prod.fst

/-- `Graph::getSize` (Graph.h, lines 236-239). -/
def getSize (g : Graph) : Nat :=
  g.size

/-- Swap-with-last-and-pop removal at index `i`:
`*it = *(--edges.end()); edges.pop_back();` (Graph.h, lines 266-267 and
303-304 and 307-308). -/
def swapRemove (l : List Nat) (i : Nat) : List Nat :=
  match l.getLast? with
  | none => l
  | some b => (l.set i b).dropLast

/-- The `while (old_vertex->edges.size() > 0)` loop of
`Graph::removeVertex` (Graph.h, lines 254-268), with explicit fuel (the
source loop terminates because each pass shortens the vector).  One pass:
take the last edge of the target vertex, determine the connected vertex
by comparing against `vertices.at(0)`, `pop_back` the target's vector,
`std::find` the same edge object in the connected vertex's vector and
swap-remove it there.  A failed `std::find` would make the source write
through the end iterator (undefined behaviour); that exit, and fuel
exhaustion with a nonempty vector, are modelled as errors carrying the
current state. -/
def removeVertexLoop : Nat → Graph → Nat → Except Graph Graph
  | 0, g, vid =>
    match assocFind vid g.vheap with
    | some vtx => if vtx.edges.isEmpty then .ok g else .error g
    | none => .error g
  | Nat.succ fuel, g, vid =>
    match assocFind vid g.vheap with
    | none => .error g
    | some vtx =>
      match vtx.edges.getLast? with
      | none => .ok g
      | some eid =>
        match assocFind eid g.eheap with
        | none => .error g
        | some e =>
          let connected := if vid = e.v0 then e.v1 else e.v0
          let g1 := { g with
            vheap := assocUpdate vid (fun v => { v with edges := v.edges.dropLast }) g.vheap }
          match assocFind connected g1.vheap with
          | none => .error g1
          | some cvtx =>
            match scanIdx (fun x => x == eid) cvtx.edges with
            | none => .error g1
            | some j =>
              removeVertexLoop fuel
                { g1 with
                  vheap := assocUpdate connected (fun v => { v with edges := swapRemove v.edges j }) g1.vheap }
                vid

/-- `Graph::removeVertex` (Graph.h, lines 247-273): `at(key)` (fatal if
absent), detach every incident edge from both sides (the loop above),
then `vertices.erase(key)` and `--size`. -/
def removeVertex (g : Graph) (key : Nat) : Except Graph Graph :=
  match assocFind key g.vertices with
  | none => .error g
  | some vid =>
    match assocFind vid g.vheap with
    | none => .error g
    | some vtx =>
      match removeVertexLoop vtx.edges.length g vid with
      | .error s => .error s
      | .ok g2 => .ok { g2 with vertices := assocErase key g2.vertices, size := g2.size - 1 }

/-- `Graph::removeEdge` (Graph.h, lines 282-309): `assert(key_0 != key_1)`;
`at` both keys; scan `key_0`'s vertex's vector for the first edge incident
to `key_1`'s vertex; `assert` found; swap-remove it there; `std::find` the
same edge object (by identity) in `key_1`'s vertex's vector and swap-remove
it there too.  A failed `std::find` would write through the end iterator
(undefined behaviour), modelled as an error carrying the mutated state. -/
def removeEdge (g : Graph) (key0 key1 : Nat) : Except Graph Graph :=
  if key0 = key1 then .error g else
    match assocFind key0 g.vertices, assocFind key1 g.vertices with
    | some v0, some v1 =>
      match assocFind v0 g.vheap with
      | none => .error g
      | some vtx0 =>
        match scanIdx (fun eid => edgeTouches g eid v1) vtx0.edges with
        | none => .error g
        | some i =>
          match vtx0.edges[i]? with
          | none => .error g
          | some eid =>
            let g1 := { g with
              vheap := assocUpdate v0 (fun vtx => { vtx with edges := swapRemove vtx.edges i }) g.vheap }
            match assocFind v1 g1.vheap with
            | none => .error g1
            | some vtx1 =>
              match scanIdx (fun x => x == eid) vtx1.edges with
              | none => .error g1
              | some j =>
                .ok { g1 with
                  vheap := assocUpdate v1 (fun vtx => { vtx with edges := swapRemove vtx.edges j }) g1.vheap }
    | _, _ => .error g

/-- The public operations, for reasoning about arbitrary call sequences. -/
inductive Op where
  | addV (key data : Nat)
  | addE (key0 key1 data : Nat)
  | getV (key : Nat)
  | getE (key0 key1 : Nat)
  | getK (vid : Nat)
  | remV (key : Nat)
  | remE (key0 key1 : Nat)
deriving DecidableEq, Repr

/-- Run one public operation.  Query operations do not mutate the state:
they succeed or fail leaving it as it was. -/
def applyOp (g : Graph) : Op → Except Graph Graph
  | .addV k d => .ok (addVertex g k d)
  | .addE k0 k1 d => addEdge g k0 k1 d
  | .getV k => match getVertex g k with
    | some _ => .ok g
    | none => .error g
  | .getE k0 k1 => match getEdge g k0 k1 with
    | some _ => .ok g
    | none => .error g
  | .getK vid => match getKey g vid with
    | some _ => .ok g
    | none => .error g
  | .remV k => removeVertex g k
  | .remE k0 k1 => removeEdge g k0 k1

/-- The documented precondition of each public operation (Graph.h doc
comments and spec 4.2-4.7): fresh key for `addVertex`; distinct existing
keys for `addEdge`; existing key/vertex/edge for the queries and
removals. -/
def precondOk (g : Graph) : Op → Bool
  | .addV k _ => !(mapContains k g.vertices)
  | .addE k0 k1 _ => !(k0 == k1) && mapContains k0 g.vertices && mapContains k1 g.vertices
  | .getV k => mapContains k g.vertices
  | .getE k0 k1 => (getEdge g k0 k1).isSome
  | .getK vid => (getKey g vid).isSome
  | .remV k => mapContains k g.vertices
  | .remE k0 k1 => (getEdge g k0 k1).isSome

/-- States reachable from the empty graph by public operations whose
preconditions hold. -/
inductive Reachable : Graph → Prop
  | empty : Reachable emptyGraph
  | step {g g' : Graph} {op : Op} : Reachable g → precondOk g op = true →
      applyOp g op = .ok g' → Reachable g'

/-- How many times edge `eid` is listed in vertex `vid`'s edge vector
(0 if no such vertex object exists). -/
def occ (g : Graph) (vid eid : Nat) : Nat :=
  match assocFind vid g.vheap with
  | some vtx => vtx.edges.count eid
  | none => 0

/-- Vertex id `vid` is live: some key of the map stores it. -/
def isLiveB (g : Graph) (vid : Nat) : Bool :=
  g.vertices.any (fun p => p.2 == vid)

/-- Edge `eid` is listed in at least one vertex's edge vector. -/
def listedB (g : Graph) (eid : Nat) : Bool :=
  g.vheap.any (fun p => p.2.edges.contains eid)

/-- The number of distinct edge objects present in the graph (edge
objects listed by some vertex; detached edge objects in the model's heap
correspond to freed C++ objects). -/
def attachedCount (g : Graph) : Nat :=
  (g.eheap.filter (fun p => listedB g p.1)).length

/-- The five structural invariants of spec 3 (plus the bookkeeping
facts about the modelled heap that the source maintains through pointer
discipline): unique keys, distinct vertex objects per key, well-formed
heaps with ids below the allocation counter, every listed edge exists
and has the listing vertex as an endpoint (invariant 1), no self-loops
(invariant 3), every edge object is listed once by each of its two
(live) endpoints and by nobody else, or not at all (invariant 2),
and the running count equals the number of map entries (invariant 4). -/
structure WF (g : Graph) : Prop where
  keys_nodup : (g.vertices.map Prod.fst).Nodup
  vids_nodup : (g.vertices.map Prod.snd).Nodup
  vheap_nodup : (g.vheap.map Prod.fst).Nodup
  eheap_nodup : (g.eheap.map Prod.fst).Nodup
  live_vertex : ∀ k vid, (k, vid) ∈ g.vertices → (assocFind vid g.vheap).isSome = true
  vid_lt : ∀ vid ∈ g.vheap.map Prod.fst, vid < g.nextId
  eid_lt : ∀ eid ∈ g.eheap.map Prod.fst, eid < g.nextId
  listed_wf : ∀ vid vtx, assocFind vid g.vheap = some vtx → ∀ eid ∈ vtx.edges,
      ∃ e, assocFind eid g.eheap = some e ∧ (vid = e.v0 ∨ vid = e.v1)
  no_self : ∀ eid e, assocFind eid g.eheap = some e → e.v0 ≠ e.v1
  two_sided : ∀ eid e, assocFind eid g.eheap = some e →
      (isLiveB g e.v0 = true ∧ isLiveB g e.v1 = true ∧
        occ g e.v0 eid = 1 ∧ occ g e.v1 eid = 1 ∧
        ∀ vid, vid ≠ e.v0 → vid ≠ e.v1 → occ g vid eid = 0) ∨
      (∀ vid, occ g vid eid = 0)
  size_eq : g.size = g.vertices.length

/-- Extract the state from a mutation result (for building concrete
example states whose construction is known to succeed). -/
def okOr (x : Except Graph Graph) : Graph :=
  match x with
  | .ok g => g
  | .error g => g

/-- One vertex: key 0, payload 10. -/
def eg1 : Graph := addVertex emptyGraph 0 10

/-- Two vertices: keys 0 and 1. -/
def eg2 : Graph := addVertex eg1 1 11

/-- Two vertices joined by one edge with payload 100. -/
def eg3 : Graph := okOr (addEdge eg2 0 1 100)

/-- Two vertices joined by two parallel edges, payloads 100 then 200. -/
def eg4 : Graph := okOr (addEdge eg3 0 1 200)

/-- Three vertices: keys 0, 1, 2. -/
def eg5 : Graph := addVertex eg2 2 12

/-- Path: edges 0-1 and 1-2. -/
def eg6 : Graph := okOr (addEdge (okOr (addEdge eg5 0 1 100)) 1 2 101)

/-! ### Association-list lemmas -/

theorem assocFind_cons (k : Nat) (p : Nat × α) (l : List (Nat × α)) :
    assocFind k (p :: l) = if p.1 = k then some p.2 else assocFind k l := rfl

theorem assocFind_update_self (k : Nat) (f : α → α) (l : List (Nat × α)) :
    assocFind k (assocUpdate k f l) = (assocFind k l).map f := by
  induction l with
  | nil => rfl
  | cons p rest ih =>
    simp only [assocUpdate, List.map_cons] at *
    by_cases h : p.1 = k
    · simp [assocFind, h]
    · simpa [assocFind, h] using ih

theorem assocFind_update_ne (j k : Nat) (hjk : j ≠ k) (f : α → α) (l : List (Nat × α)) :
    assocFind j (assocUpdate k f l) = assocFind j l := by
  induction l with
  | nil => rfl
  | cons p rest ih =>
    simp only [assocUpdate, List.map_cons] at *
    by_cases h2 : p.1 = j
    · have h : p.1 ≠ k := fun hc => hjk (h2 ▸ hc)
      rw [if_neg h, assocFind_cons, assocFind_cons, if_pos h2, if_pos h2]
    · by_cases h : p.1 = k
      · rw [if_pos h, assocFind_cons, assocFind_cons, if_neg h2, if_neg h2]
        exact ih
      · rw [if_neg h, assocFind_cons, assocFind_cons, if_neg h2, if_neg h2]
        exact ih

theorem assocUpdate_map_fst (k : Nat) (f : α → α) (l : List (Nat × α)) :
    (assocUpdate k f l).map Prod.fst = l.map Prod.fst := by
  induction l with
  | nil => rfl
  | cons p rest ih =>
    by_cases h : p.1 = k <;> simp [assocUpdate, h] at * <;> simpa using ih

theorem assocFind_isSome_iff (k : Nat) (l : List (Nat × α)) :
    (assocFind k l).isSome = true ↔ k ∈ l.map Prod.fst := by
  induction l with
  | nil => simp [assocFind]
  | cons p rest ih =>
    rw [assocFind_cons]
    by_cases h : p.1 = k
    · simp [h]
    · rw [if_neg h]
      simp only [List.map_cons, List.mem_cons]
      rw [ih]
      constructor
      · exact Or.inr
      · rintro (hc | hm)
        · exact absurd hc.symm h
        · exact hm

theorem assocFind_mem {k : Nat} {l : List (Nat × α)} {v : α}
    (h : assocFind k l = some v) : (k, v) ∈ l := by
  induction l with
  | nil => simp [assocFind] at h
  | cons p rest ih =>
    rw [assocFind_cons] at h
    by_cases hp : p.1 = k
    · rw [if_pos hp] at h
      have hpv : p = (k, v) := by
        obtain ⟨a, b⟩ := p
        simp_all
      rw [← hpv]
      exact List.mem_cons_self p rest
    · rw [if_neg hp] at h
      exact List.mem_cons_of_mem _ (ih h)

theorem assocFind_eq_of_mem {k : Nat} {l : List (Nat × α)} {v : α}
    (hnd : (l.map Prod.fst).Nodup) (h : (k, v) ∈ l) : assocFind k l = some v := by
  induction l with
  | nil => simp at h
  | cons p rest ih =>
    simp only [List.map_cons, List.nodup_cons] at hnd
    rcases List.mem_cons.mp h with h1 | h2
    · rw [← h1, assocFind_cons]
      simp
    · have hp : p.1 ≠ k := by
        intro hc
        exact hnd.1 (by
          rw [hc]
          exact List.mem_map.mpr ⟨(k, v), h2, rfl⟩)
      rw [assocFind_cons, if_neg hp]
      exact ih hnd.2 h2

theorem assocErase_cons_self {k : Nat} {p : Nat × α} (h : p.1 = k) (l : List (Nat × α)) :
    assocErase k (p :: l) = assocErase k l := by
  simp [assocErase, List.filter_cons, h]

theorem assocErase_cons_ne {k : Nat} {p : Nat × α} (h : p.1 ≠ k) (l : List (Nat × α)) :
    assocErase k (p :: l) = p :: assocErase k l := by
  simp [assocErase, List.filter_cons, h]

theorem assocFind_erase_self (k : Nat) (l : List (Nat × α)) :
    assocFind k (assocErase k l) = none := by
  induction l with
  | nil => rfl
  | cons p rest ih =>
    by_cases h : p.1 = k
    · rw [assocErase_cons_self h, ih]
    · rw [assocErase_cons_ne h, assocFind_cons, if_neg h, ih]

theorem assocFind_erase_ne (j k : Nat) (hjk : j ≠ k) (l : List (Nat × α)) :
    assocFind j (assocErase k l) = assocFind j l := by
  induction l with
  | nil => rfl
  | cons p rest ih =>
    by_cases h : p.1 = k
    · have hpj : p.1 ≠ j := fun hc => hjk (hc.symm.trans h)
      rw [assocErase_cons_self h, ih, assocFind_cons, if_neg hpj]
    · rw [assocErase_cons_ne h, assocFind_cons, assocFind_cons, ih]

theorem assocErase_sublist (k : Nat) (l : List (Nat × α)) :
    (assocErase k l).Sublist l :=
  List.filter_sublist l

theorem assocErase_length {k : Nat} {l : List (Nat × α)}
    (hk : (assocFind k l).isSome = true) (hnd : (l.map Prod.fst).Nodup) :
    (assocErase k l).length + 1 = l.length := by
  induction l with
  | nil => simp [assocFind] at hk
  | cons p rest ih =>
    simp only [List.map_cons, List.nodup_cons] at hnd
    by_cases h : p.1 = k
    · have hrest : assocErase k rest = rest := by
        apply List.filter_eq_self.mpr
        intro q hq
        simp only [decide_eq_true_eq, ne_eq]
        intro hc
        apply hnd.1
        have hmem : q.1 ∈ List.map Prod.fst rest := List.mem_map.mpr ⟨q, hq, rfl⟩
        rwa [hc, ← h] at hmem
      rw [assocErase_cons_self h, hrest, List.length_cons]
    · rw [assocFind_cons, if_neg h] at hk
      have := ih hk hnd.2
      rw [assocErase_cons_ne h, List.length_cons, List.length_cons]
      omega

/-! ### Scan lemmas -/

theorem scanIdx_cons_pos {p : Nat → Bool} {a : Nat} (hp : p a = true) (l : List Nat) :
    scanIdx p (a :: l) = some 0 := by
  simp [scanIdx, hp]

theorem scanIdx_cons_neg {p : Nat → Bool} {a : Nat} (hp : ¬p a = true) (l : List Nat) :
    scanIdx p (a :: l) = (scanIdx p l).map (· + 1) := by
  simp [scanIdx, hp]

theorem scanIdx_none_iff (p : Nat → Bool) (l : List Nat) :
    scanIdx p l = none ↔ ∀ x ∈ l, p x = false := by
  induction l with
  | nil => simp [scanIdx]
  | cons a rest ih =>
    by_cases h : p a
    · rw [scanIdx_cons_pos h]
      constructor
      · intro hc
        cases hc
      · intro hall
        rw [hall a (List.mem_cons_self a rest)] at h
        cases h
    · rw [scanIdx_cons_neg h]
      constructor
      · intro hc y hy
        rcases List.mem_cons.mp hy with rfl | hy2
        · exact Bool.eq_false_iff.mpr h
        · rcases hnone : scanIdx p rest with _ | i
          · exact (ih.mp hnone) y hy2
          · rw [hnone] at hc
            cases hc
      · intro hall
        have hrest : scanIdx p rest = none :=
          ih.mpr (fun y hy => hall y (List.mem_cons_of_mem a hy))
        rw [hrest]
        rfl

theorem scanIdx_some {p : Nat → Bool} {l : List Nat} {i : Nat}
    (h : scanIdx p l = some i) :
    ∃ x, l[i]? = some x ∧ p x = true ∧ ∀ j, j < i → ∀ y, l[j]? = some y → p y = false := by
  induction l generalizing i with
  | nil => simp [scanIdx] at h
  | cons a rest ih =>
    by_cases hp : p a
    · rw [scanIdx_cons_pos hp] at h
      have h0 : i = 0 := by
        cases h
        rfl
      subst h0
      exact ⟨a, by simp, hp, fun j hj => absurd hj (Nat.not_lt_zero j)⟩
    · rw [scanIdx_cons_neg hp] at h
      rcases hrest : scanIdx p rest with _ | i0
      · rw [hrest] at h
        cases h
      · rw [hrest] at h
        have hi : i = i0 + 1 := by
          cases h
          rfl
        subst hi
        obtain ⟨x, hx, hpx, hfirst⟩ := ih hrest
        refine ⟨x, by simpa using hx, hpx, ?_⟩
        intro j hj y hy
        match j with
        | 0 =>
          have hy2 : y = a := by simpa using hy.symm
          rw [hy2]
          exact Bool.eq_false_iff.mpr hp
        | j' + 1 =>
          exact hfirst j' (by omega) y (by simpa using hy)

theorem scanIdx_isSome_of_mem {p : Nat → Bool} {l : List Nat} {x : Nat}
    (hm : x ∈ l) (hp : p x = true) : (scanIdx p l).isSome = true := by
  rcases h : scanIdx p l with _ | i
  · rw [scanIdx_none_iff] at h
    rw [h x hm] at hp
    cases hp
  · rfl

theorem scanIdx_append_single (p : Nat → Bool) (l : List Nat) (x : Nat) :
    scanIdx p (l ++ [x]) =
      match scanIdx p l with
      | some i => some i
      | none => if p x then some l.length else none := by
  induction l with
  | nil => by_cases hx : p x <;> simp [scanIdx, hx]
  | cons a rest ih =>
    by_cases hp : p a
    · rw [List.cons_append, scanIdx_cons_pos hp, scanIdx_cons_pos hp]
    · rw [List.cons_append, scanIdx_cons_neg hp, scanIdx_cons_neg hp, ih]
      rcases hrest : scanIdx p rest with _ | i
      · by_cases hx : p x <;> simp [hx, List.length_cons]
      · simp

/-! ### Count and swap-remove lemmas -/

theorem count_set_aux (l : List Nat) (i : Nat) (h : i < l.length) (b x : Nat) :
    (l.set i b).count x + (if l[i] = x then 1 else 0)
      = l.count x + (if b = x then 1 else 0) := by
  induction l generalizing i with
  | nil => simp at h
  | cons a rest ih =>
    match i with
    | 0 =>
      simp only [List.set_cons_zero, List.getElem_cons_zero]
      by_cases hb : b = x <;> by_cases ha : a = x <;>
        simp [hb, ha, List.count_cons] <;> omega
    | i' + 1 =>
      have h' : i' < rest.length := by
        simp only [List.length_cons] at h
        omega
      simp only [List.set_cons_succ, List.getElem_cons_succ]
      have hih := ih i' h'
      by_cases hr : rest[i'] = x <;> by_cases hb : b = x <;> by_cases ha : a = x <;>
        simp [hr, hb, ha, List.count_cons] at hih ⊢ <;> omega

theorem swapRemove_eta (m : List Nat) (b : Nat) (i : Nat) :
    swapRemove (m ++ [b]) i = ((m ++ [b]).set i b).dropLast := by
  simp [swapRemove, List.getLast?_concat]

theorem swapRemove_count {l : List Nat} {i : Nat} (h : i < l.length) (x : Nat) :
    (swapRemove l i).count x + (if l[i] = x then 1 else 0) = l.count x := by
  rcases List.eq_nil_or_concat' l with rfl | ⟨m, b, rfl⟩
  · simp at h
  · rw [swapRemove_eta]
    have hlen : i < m.length + 1 := by simpa using h
    by_cases hi : i < m.length
    · have hset : (m ++ [b]).set i b = m.set i b ++ [b] := by
        rw [List.set_append]
        simp [hi]
      rw [hset, List.dropLast_concat]
      have hgeti : (m ++ [b])[i] = m[i] := List.getElem_append_left hi
      rw [hgeti]
      have hmain := count_set_aux m i hi b x
      by_cases h1 : m[i] = x <;> by_cases h2 : b = x <;>
        simp [h1, h2, List.count_append, List.count_cons] at hmain ⊢ <;> omega
    · have hi2 : i = m.length := by omega
      subst hi2
      have hset : (m ++ [b]).set m.length b = m ++ [b] := by
        rw [List.set_append]
        simp
      rw [hset, List.dropLast_concat]
      have hget : (m ++ [b])[m.length] = b :=
        List.getElem_concat_length m b m.length rfl (by simpa using h)
      rw [hget]
      by_cases h2 : b = x <;>
        simp [h2, List.count_append, List.count_cons] <;> omega

theorem swapRemove_count_other {l : List Nat} {i : Nat} (h : i < l.length) {x : Nat}
    (hx : l[i] ≠ x) : (swapRemove l i).count x = l.count x := by
  have hc := swapRemove_count h x
  simpa [hx] using hc

theorem swapRemove_count_self {l : List Nat} {i : Nat} (h : i < l.length) :
    (swapRemove l i).count (l[i]) + 1 = l.count (l[i]) := by
  have hc := swapRemove_count h (l[i])
  simpa using hc

theorem swapRemove_length {l : List Nat} {i : Nat} (h : i < l.length) :
    (swapRemove l i).length + 1 = l.length := by
  rcases List.eq_nil_or_concat' l with rfl | ⟨m, b, rfl⟩
  · simp at h
  · rw [swapRemove_eta]
    simp

theorem swapRemove_subset {l : List Nat} {i : Nat} (h : i < l.length) {x : Nat}
    (hx : x ∈ swapRemove l i) : x ∈ l := by
  have hc := swapRemove_count h x
  rw [← List.count_pos_iff] at hx ⊢
  by_cases he : l[i] = x <;> simp [he] at hc <;> omega

theorem count_dropLast_getLast {l : List Nat} {b : Nat} (h : l.getLast? = some b) (x : Nat) :
    l.dropLast.count x + (if b = x then 1 else 0) = l.count x := by
  rcases List.eq_nil_or_concat' l with rfl | ⟨m, c, rfl⟩
  · simp at h
  · rw [List.getLast?_concat] at h
    obtain rfl : c = b := by injection h
    rw [List.dropLast_concat]
    by_cases hb : c = x <;>
      simp [hb, List.count_append, List.count_cons] <;> omega

theorem mem_of_getLast? {l : List Nat} {b : Nat} (h : l.getLast? = some b) : b ∈ l := by
  rcases List.eq_nil_or_concat' l with rfl | ⟨m, c, rfl⟩
  · simp at h
  · rw [List.getLast?_concat] at h
    obtain rfl : c = b := by injection h
    simp

/-! ### Lemmas about the key map -/

theorem snd_injective_of_nodup {l : List (Nat × Nat)} (hnd : (l.map Prod.snd).Nodup)
    {k1 k2 v : Nat} (h1 : (k1, v) ∈ l) (h2 : (k2, v) ∈ l) : k1 = k2 := by
  induction l with
  | nil => simp at h1
  | cons p rest ih =>
    simp only [List.map_cons, List.nodup_cons] at hnd
    rcases List.mem_cons.mp h1 with heq1 | h1'
    · rcases List.mem_cons.mp h2 with heq2 | h2'
      · rw [← heq2] at heq1
        exact congrArg Prod.fst heq1
      · exfalso
        apply hnd.1
        rw [← heq1]
        exact List.mem_map.mpr ⟨(k2, v), h2', rfl⟩
    · rcases List.mem_cons.mp h2 with heq2 | h2'
      · exfalso
        apply hnd.1
        rw [← heq2]
        exact List.mem_map.mpr ⟨(k1, v), h1', rfl⟩
      · exact ih hnd.2 h1' h2'

theorem find?_snd_eq {l : List (Nat × Nat)} (hnd : (l.map Prod.snd).Nodup)
    {k v : Nat} (hm : (k, v) ∈ l) : l.find? (fun p => p.2 == v) = some (k, v) := by
  induction l with
  | nil => simp at hm
  | cons p rest ih =>
    simp only [List.map_cons, List.nodup_cons] at hnd
    rcases List.mem_cons.mp hm with heq | hm'
    · rw [← heq]
      simp [List.find?]
    · have hp2 : p.2 ≠ v := by
        intro hc
        apply hnd.1
        rw [hc]
        exact List.mem_map.mpr ⟨(k, v), hm', rfl⟩
      have hpa : (fun p : Nat × Nat => p.2 == v) p = false := by
        simp [hp2]
      simp only [List.find?_cons, hpa]
      exact ih hnd.2 hm'

theorem isLiveB_iff (g : Graph) (vid : Nat) :
    isLiveB g vid = true ↔ ∃ k, (k, vid) ∈ g.vertices := by
  simp only [isLiveB, List.any_eq_true, beq_iff_eq]
  constructor
  · rintro ⟨p, hp, he⟩
    refine ⟨p.1, ?_⟩
    obtain ⟨a, b⟩ := p
    simp only at he
    rw [he] at hp
    exact hp
  · rintro ⟨k, hk⟩
    exact ⟨(k, vid), hk, rfl⟩

/-! ### Occurrence-count and attached-count lemmas -/

theorem occ_of_find {g : Graph} {vid : Nat} {vtx : Vertex}
    (h : assocFind vid g.vheap = some vtx) (eid : Nat) :
    occ g vid eid = vtx.edges.count eid := by
  simp [occ, h]

theorem occ_of_none {g : Graph} {vid : Nat}
    (h : assocFind vid g.vheap = none) (eid : Nat) : occ g vid eid = 0 := by
  simp [occ, h]

theorem listedB_iff {g : Graph} (hnd : (g.vheap.map Prod.fst).Nodup) (eid : Nat) :
    listedB g eid = true ↔ ∃ vid, 0 < occ g vid eid := by
  simp only [listedB, List.any_eq_true]
  constructor
  · rintro ⟨p, hp, hc⟩
    refine ⟨p.1, ?_⟩
    have hfind : assocFind p.1 g.vheap = some p.2 := assocFind_eq_of_mem hnd hp
    rw [occ_of_find hfind]
    rw [List.count_pos_iff]
    simpa using hc
  · rintro ⟨vid, hocc⟩
    rcases hv : assocFind vid g.vheap with _ | vtx
    · rw [occ_of_none hv] at hocc
      omega
    · refine ⟨(vid, vtx), assocFind_mem hv, ?_⟩
      rw [occ_of_find hv] at hocc
      simpa using List.count_pos_iff.mp hocc

theorem listedB_congr {g1 g2 : Graph}
    (hnd1 : (g1.vheap.map Prod.fst).Nodup) (hnd2 : (g2.vheap.map Prod.fst).Nodup)
    {eid : Nat} (hocc : ∀ w, occ g1 w eid = occ g2 w eid) :
    listedB g1 eid = listedB g2 eid := by
  rcases h1 : listedB g1 eid with _ | _ <;> rcases h2 : listedB g2 eid with _ | _
  · rfl
  · obtain ⟨w, hw⟩ := (listedB_iff hnd2 eid).mp h2
    rw [← hocc w] at hw
    have := (listedB_iff hnd1 eid).mpr ⟨w, hw⟩
    rw [h1] at this
    cases this
  · obtain ⟨w, hw⟩ := (listedB_iff hnd1 eid).mp h1
    rw [hocc w] at hw
    have := (listedB_iff hnd2 eid).mpr ⟨w, hw⟩
    rw [h2] at this
    cases this
  · rfl

theorem length_filter_flip {p q : Nat × Edge → Bool} :
    ∀ (l : List (Nat × Edge)) (eid : Nat), (l.map Prod.fst).Nodup →
      (∀ x ∈ l, x.1 ≠ eid → p x = q x) →
      (∀ x ∈ l, x.1 = eid → p x = true ∧ q x = false) →
      eid ∈ l.map Prod.fst →
      (l.filter q).length + 1 = (l.filter p).length := by
  intro l
  induction l with
  | nil =>
    intro eid _ _ _ hm
    simp at hm
  | cons a rest ih =>
    intro eid hnd hoth hflip hm
    simp only [List.map_cons, List.nodup_cons] at hnd
    by_cases ha : a.1 = eid
    · obtain ⟨hpa, hqa⟩ := hflip a (List.mem_cons_self a rest) ha
      rw [List.filter_cons, List.filter_cons, hpa, hqa]
      have hequal : rest.filter q = rest.filter p := by
        apply List.filter_congr
        intro x hx
        have hxne : x.1 ≠ eid := by
          intro hc
          apply hnd.1
          rw [ha, ← hc]
          exact List.mem_map.mpr ⟨x, hx, rfl⟩
        exact (hoth x (List.mem_cons_of_mem a hx) hxne).symm
      simp [hequal]
    · have hpq : p a = q a := hoth a (List.mem_cons_self a rest) ha
      have hm' : eid ∈ rest.map Prod.fst := by
        simp only [List.map_cons, List.mem_cons] at hm
        rcases hm with hc | hm'
        · exact absurd hc.symm ha
        · exact hm'
      have hih := ih eid hnd.2
        (fun x hx => hoth x (List.mem_cons_of_mem a hx))
        (fun x hx => hflip x (List.mem_cons_of_mem a hx)) hm'
      rw [List.filter_cons, List.filter_cons, ← hpq]
      by_cases hpa : p a
      · simp only [hpa, if_true, List.length_cons]
        omega
      · simp only [hpa, if_false, Bool.false_eq_true]
        exact hih

/-! ### Basic consequences of well-formedness -/

theorem mapContains_iff (k : Nat) (l : List (Nat × α)) :
    mapContains k l = true ↔ k ∈ l.map Prod.fst := by
  rw [mapContains]
  exact assocFind_isSome_iff k l

theorem WF.vid_lt_of_find {g : Graph} (hwf : WF g) {vid : Nat} {vtx : Vertex}
    (h : assocFind vid g.vheap = some vtx) : vid < g.nextId := by
  apply hwf.vid_lt
  rw [← assocFind_isSome_iff]
  simp [h]

theorem WF.eid_lt_of_find {g : Graph} (hwf : WF g) {eid : Nat} {e : Edge}
    (h : assocFind eid g.eheap = some e) : eid < g.nextId := by
  apply hwf.eid_lt
  rw [← assocFind_isSome_iff]
  simp [h]

theorem WF.fresh_vid {g : Graph} (hwf : WF g) :
    assocFind g.nextId g.vheap = none := by
  rcases h : assocFind g.nextId g.vheap with _ | vtx
  · rfl
  · exact absurd (hwf.vid_lt_of_find h) (by omega)

theorem WF.fresh_eid {g : Graph} (hwf : WF g) :
    assocFind g.nextId g.eheap = none := by
  rcases h : assocFind g.nextId g.eheap with _ | e
  · rfl
  · exact absurd (hwf.eid_lt_of_find h) (by omega)

theorem WF.fresh_eid_not_listed {g : Graph} (hwf : WF g) {vid : Nat} {vtx : Vertex}
    (h : assocFind vid g.vheap = some vtx) : g.nextId ∉ vtx.edges := by
  intro hc
  obtain ⟨e, he, _⟩ := hwf.listed_wf vid vtx h g.nextId hc
  exact absurd (hwf.eid_lt_of_find he) (by omega)

theorem WF.vids_distinct {g : Graph} (hwf : WF g) {k0 k1 v0 v1 : Nat}
    (h0 : assocFind k0 g.vertices = some v0) (h1 : assocFind k1 g.vertices = some v1)
    (hk : k0 ≠ k1) : v0 ≠ v1 := by
  intro hc
  subst hc
  exact hk (snd_injective_of_nodup hwf.vids_nodup (assocFind_mem h0) (assocFind_mem h1))

theorem WF.live_find {g : Graph} (hwf : WF g) {vid : Nat}
    (h : isLiveB g vid = true) : ∃ vtx, assocFind vid g.vheap = some vtx := by
  obtain ⟨k, hk⟩ := (isLiveB_iff g vid).mp h
  have := hwf.live_vertex k vid hk
  rcases hfind : assocFind vid g.vheap with _ | vtx
  · rw [hfind] at this
    cases this
  · exact ⟨vtx, rfl⟩

theorem WF_empty : WF emptyGraph := by
  refine ⟨?_, ?_, ?_, ?_, ?_, ?_, ?_, ?_, ?_, ?_, ?_⟩ <;>
    simp [emptyGraph, assocFind, occ, isLiveB]

/-! ### Preservation: addVertex -/

theorem addVertex_fresh_def {g : Graph} {k : Nat} (d : Nat)
    (h : mapContains k g.vertices = false) :
    addVertex g k d =
      { vertices := (k, g.nextId) :: g.vertices
        vheap := (g.nextId, { edges := [], data := d }) :: g.vheap
        eheap := g.eheap
        size := g.size + 1
        nextId := g.nextId + 1 } := by
  simp [addVertex, h]

theorem addVertex_dup_def {g : Graph} {k : Nat} (d : Nat)
    (h : mapContains k g.vertices = true) :
    addVertex g k d = { g with size := g.size + 1, nextId := g.nextId + 1 } := by
  simp [addVertex, h]

theorem occ_vheap_cons {g g' : Graph} {a : Nat} {vtx0 : Vertex}
    (h : g'.vheap = (a, vtx0) :: g.vheap) (w eid : Nat) :
    occ g' w eid = if a = w then vtx0.edges.count eid else occ g w eid := by
  by_cases hw : a = w <;> simp [occ, h, assocFind_cons, hw]

theorem isLiveB_vertices_cons {g g' : Graph} {k v : Nat}
    (h : g'.vertices = (k, v) :: g.vertices) (w : Nat) :
    isLiveB g' w = (v == w || isLiveB g w) := by
  simp [isLiveB, h, List.any_cons]

theorem WF_addVertex {g : Graph} (hwf : WF g) (k d : Nat)
    (h : mapContains k g.vertices = false) : WF (addVertex g k d) := by
  have hdef := addVertex_fresh_def (g := g) (k := k) d h
  have hverts : (addVertex g k d).vertices = (k, g.nextId) :: g.vertices := by rw [hdef]
  have hvheap : (addVertex g k d).vheap
      = (g.nextId, { edges := [], data := d }) :: g.vheap := by rw [hdef]
  have heheap : (addVertex g k d).eheap = g.eheap := by rw [hdef]
  have hsize : (addVertex g k d).size = g.size + 1 := by rw [hdef]
  have hnext : (addVertex g k d).nextId = g.nextId + 1 := by rw [hdef]
  have hknotin : k ∉ g.vertices.map Prod.fst := by
    intro hc
    rw [← mapContains_iff] at hc
    rw [hc] at h
    cases h
  have hnid_snd : g.nextId ∉ g.vertices.map Prod.snd := by
    intro hc
    obtain ⟨p, hp, hp2⟩ := List.mem_map.mp hc
    have hlive := hwf.live_vertex p.1 p.2 (by simpa using hp)
    rw [hp2, hwf.fresh_vid] at hlive
    cases hlive
  have hnid_fst : g.nextId ∉ g.vheap.map Prod.fst := fun hc =>
    absurd (hwf.vid_lt _ hc) (by omega)
  have hocc : ∀ w eid, occ (addVertex g k d) w eid
      = if g.nextId = w then 0 else occ g w eid := by
    intro w eid
    rw [occ_vheap_cons hvheap w eid]
    simp
  have hliveb : ∀ w, isLiveB (addVertex g k d) w = (g.nextId == w || isLiveB g w) :=
    isLiveB_vertices_cons hverts
  refine ⟨?_, ?_, ?_, ?_, ?_, ?_, ?_, ?_, ?_, ?_, ?_⟩
  · rw [hverts, List.map_cons]
    exact List.nodup_cons.mpr ⟨hknotin, hwf.keys_nodup⟩
  · rw [hverts, List.map_cons]
    exact List.nodup_cons.mpr ⟨hnid_snd, hwf.vids_nodup⟩
  · rw [hvheap, List.map_cons]
    exact List.nodup_cons.mpr ⟨hnid_fst, hwf.vheap_nodup⟩
  · rw [heheap]
    exact hwf.eheap_nodup
  · intro k' vid' hmem
    rw [hverts] at hmem
    rw [hvheap]
    rcases List.mem_cons.mp hmem with heq | hmem'
    · injection heq with h1 h2
      subst h2
      simp [assocFind_cons]
    · rw [assocFind_cons]
      by_cases hv : g.nextId = vid'
      · simp [hv]
      · rw [if_neg hv]
        exact hwf.live_vertex k' vid' hmem'
  · intro vid hmem
    rw [hvheap] at hmem
    rw [hnext]
    simp only [List.map_cons, List.mem_cons] at hmem
    rcases hmem with rfl | hmem'
    · omega
    · exact Nat.lt_succ_of_lt (hwf.vid_lt vid hmem')
  · intro eid hmem
    rw [heheap] at hmem
    rw [hnext]
    exact Nat.lt_succ_of_lt (hwf.eid_lt eid hmem)
  · intro vid vtx hfind eid hin
    rw [hvheap, assocFind_cons] at hfind
    rw [heheap]
    by_cases hv : g.nextId = vid
    · rw [if_pos hv] at hfind
      injection hfind with hfind
      rw [← hfind] at hin
      simp at hin
    · rw [if_neg hv] at hfind
      exact hwf.listed_wf vid vtx hfind eid hin
  · intro eid e hfind
    rw [heheap] at hfind
    exact hwf.no_self eid e hfind
  · intro eid e hfind
    rw [heheap] at hfind
    rcases hwf.two_sided eid e hfind with ⟨hl0, hl1, ho0, ho1, hoth⟩ | hdet
    · left
      have hv0 : g.nextId ≠ e.v0 := by
        intro hc
        obtain ⟨vtx, hvtx⟩ := hwf.live_find hl0
        rw [← hc, hwf.fresh_vid] at hvtx
        cases hvtx
      have hv1 : g.nextId ≠ e.v1 := by
        intro hc
        obtain ⟨vtx, hvtx⟩ := hwf.live_find hl1
        rw [← hc, hwf.fresh_vid] at hvtx
        cases hvtx
      refine ⟨?_, ?_, ?_, ?_, ?_⟩
      · rw [hliveb e.v0, hl0]
        simp
      · rw [hliveb e.v1, hl1]
        simp
      · rw [hocc e.v0 eid, if_neg hv0]
        exact ho0
      · rw [hocc e.v1 eid, if_neg hv1]
        exact ho1
      · intro w hw0 hw1
        rw [hocc w eid]
        by_cases hw : g.nextId = w
        · rw [if_pos hw]
        · rw [if_neg hw]
          exact hoth w hw0 hw1
    · right
      intro w
      rw [hocc w eid]
      by_cases hw : g.nextId = w
      · rw [if_pos hw]
      · rw [if_neg hw]
        exact hdet w
  · rw [hsize, hverts, List.length_cons, hwf.size_eq]

/-! ### Preservation: addEdge -/

theorem assocFind_isSome_congr {l1 l2 : List (Nat × α)}
    (h : l1.map Prod.fst = l2.map Prod.fst) (k : Nat) :
    (assocFind k l1).isSome = (assocFind k l2).isSome := by
  rw [Bool.eq_iff_iff, assocFind_isSome_iff, assocFind_isSome_iff, h]

theorem isLiveB_congr {g1 g2 : Graph} (h : g1.vertices = g2.vertices) (w : Nat) :
    isLiveB g1 w = isLiveB g2 w := by
  simp [isLiveB, h]

theorem count_append_single (l : List Nat) (a eid : Nat) :
    (l ++ [a]).count eid = l.count eid + (if a = eid then 1 else 0) := by
  by_cases he : a = eid <;> simp [he, List.count_append, List.count_cons]

theorem addEdge_spec {g : Graph} (hwf : WF g) {k0 k1 : Nat} (d : Nat) {v0 v1 : Nat}
    (hne : k0 ≠ k1)
    (h0 : assocFind k0 g.vertices = some v0) (h1 : assocFind k1 g.vertices = some v1) :
    ∃ g' vtx0 vtx1,
      addEdge g k0 k1 d = .ok g' ∧
      assocFind v0 g.vheap = some vtx0 ∧
      assocFind v1 g.vheap = some vtx1 ∧
      v0 ≠ v1 ∧
      g'.vertices = g.vertices ∧
      g'.size = g.size ∧
      g'.nextId = g.nextId + 1 ∧
      g'.eheap = (g.nextId, { v0 := v0, v1 := v1, data := d }) :: g.eheap ∧
      assocFind v0 g'.vheap = some { vtx0 with edges := vtx0.edges ++ [g.nextId] } ∧
      assocFind v1 g'.vheap = some { vtx1 with edges := vtx1.edges ++ [g.nextId] } ∧
      (∀ w, w ≠ v0 → w ≠ v1 → assocFind w g'.vheap = assocFind w g.vheap) ∧
      g'.vheap.map Prod.fst = g.vheap.map Prod.fst ∧
      WF g' := by
  obtain ⟨vtx0, hvtx0⟩ : ∃ vtx, assocFind v0 g.vheap = some vtx := by
    have := hwf.live_vertex k0 v0 (assocFind_mem h0)
    rcases hf : assocFind v0 g.vheap with _ | vtx
    · rw [hf] at this
      cases this
    · exact ⟨vtx, rfl⟩
  obtain ⟨vtx1, hvtx1⟩ : ∃ vtx, assocFind v1 g.vheap = some vtx := by
    have := hwf.live_vertex k1 v1 (assocFind_mem h1)
    rcases hf : assocFind v1 g.vheap with _ | vtx
    · rw [hf] at this
      cases this
    · exact ⟨vtx, rfl⟩
  have hvne : v0 ≠ v1 := hwf.vids_distinct h0 h1 hne
  have hok : addEdge g k0 k1 d = .ok
      { g with
        vheap := assocUpdate v1 (fun vtx => { vtx with edges := vtx.edges ++ [g.nextId] })
                   (assocUpdate v0 (fun vtx => { vtx with edges := vtx.edges ++ [g.nextId] }) g.vheap)
        eheap := (g.nextId, { v0 := v0, v1 := v1, data := d }) :: g.eheap
        nextId := g.nextId + 1 } := by
    simp [addEdge, hne, h0, h1]
  refine ⟨_, vtx0, vtx1, hok, hvtx0, hvtx1, hvne, rfl, rfl, rfl, rfl, ?_, ?_, ?_, ?_, ?_⟩
  · dsimp only
    rw [assocFind_update_ne v0 v1 hvne, assocFind_update_self, hvtx0]
    rfl
  · dsimp only
    rw [assocFind_update_self, assocFind_update_ne v1 v0 (fun hc => hvne hc.symm), hvtx1]
    rfl
  · intro w hw0 hw1
    dsimp only
    rw [assocFind_update_ne w v1 hw1, assocFind_update_ne w v0 hw0]
  · dsimp only
    rw [assocUpdate_map_fst, assocUpdate_map_fst]
  · constructor
    case keys_nodup => exact hwf.keys_nodup
    case vids_nodup => exact hwf.vids_nodup
    case vheap_nodup =>
      dsimp only
      rw [assocUpdate_map_fst, assocUpdate_map_fst]
      exact hwf.vheap_nodup
    case eheap_nodup =>
      dsimp only
      rw [List.map_cons]
      refine List.nodup_cons.mpr ⟨?_, hwf.eheap_nodup⟩
      intro hc
      exact absurd (hwf.eid_lt _ hc) (by omega)
    case live_vertex =>
      intro k' vid' hmem
      have hfst : (assocUpdate v1 (fun vtx => { vtx with edges := vtx.edges ++ [g.nextId] })
          (assocUpdate v0 (fun vtx => { vtx with edges := vtx.edges ++ [g.nextId] }) g.vheap)).map Prod.fst
          = g.vheap.map Prod.fst := by
        rw [assocUpdate_map_fst, assocUpdate_map_fst]
      dsimp only at hmem ⊢
      rw [assocFind_isSome_congr hfst]
      exact hwf.live_vertex k' vid' hmem
    case vid_lt =>
      intro vid hmem
      have hfst : (assocUpdate v1 (fun vtx => { vtx with edges := vtx.edges ++ [g.nextId] })
          (assocUpdate v0 (fun vtx => { vtx with edges := vtx.edges ++ [g.nextId] }) g.vheap)).map Prod.fst
          = g.vheap.map Prod.fst := by
        rw [assocUpdate_map_fst, assocUpdate_map_fst]
      dsimp only at hmem ⊢
      rw [hfst] at hmem
      exact Nat.lt_succ_of_lt (hwf.vid_lt vid hmem)
    case eid_lt =>
      intro eid hmem
      dsimp only at hmem ⊢
      rw [List.map_cons, List.mem_cons] at hmem
      rcases hmem with rfl | hmem'
      · omega
      · exact Nat.lt_succ_of_lt (hwf.eid_lt eid hmem')
    case listed_wf =>
      intro vid vtx hfind eid hin
      dsimp only at hfind ⊢
      have hfind_new : ∀ e0, assocFind eid ((g.nextId, e0) :: g.eheap)
          = if g.nextId = eid then some e0 else assocFind eid g.eheap := by
        intro e0
        rw [assocFind_cons]
      by_cases hv0 : vid = v0
      · rw [hv0] at hfind ⊢
        rw [show assocFind v0 (assocUpdate v1 (fun vtx => { vtx with edges := vtx.edges ++ [g.nextId] })
            (assocUpdate v0 (fun vtx => { vtx with edges := vtx.edges ++ [g.nextId] }) g.vheap))
            = some { vtx0 with edges := vtx0.edges ++ [g.nextId] } from by
          rw [assocFind_update_ne v0 v1 hvne, assocFind_update_self, hvtx0]
          rfl] at hfind
        injection hfind with hfind
        rw [← hfind] at hin
        simp only [List.mem_append, List.mem_singleton] at hin
        rcases hin with hold | rfl
        · obtain ⟨e, he, hend⟩ := hwf.listed_wf v0 vtx0 hvtx0 eid hold
          have heidlt := hwf.eid_lt_of_find he
          refine ⟨e, ?_, hend⟩
          rw [hfind_new, if_neg (by omega)]
          exact he
        · refine ⟨{ v0 := v0, v1 := v1, data := d }, ?_, Or.inl rfl⟩
          rw [hfind_new, if_pos rfl]
      · by_cases hv1 : vid = v1
        · rw [hv1] at hfind ⊢
          rw [show assocFind v1 (assocUpdate v1 (fun vtx => { vtx with edges := vtx.edges ++ [g.nextId] })
              (assocUpdate v0 (fun vtx => { vtx with edges := vtx.edges ++ [g.nextId] }) g.vheap))
              = some { vtx1 with edges := vtx1.edges ++ [g.nextId] } from by
            rw [assocFind_update_self, assocFind_update_ne v1 v0 (fun hc => hvne hc.symm), hvtx1]
            rfl] at hfind
          injection hfind with hfind
          rw [← hfind] at hin
          simp only [List.mem_append, List.mem_singleton] at hin
          rcases hin with hold | rfl
          · obtain ⟨e, he, hend⟩ := hwf.listed_wf v1 vtx1 hvtx1 eid hold
            have heidlt := hwf.eid_lt_of_find he
            refine ⟨e, ?_, hend⟩
            rw [hfind_new, if_neg (by omega)]
            exact he
          · refine ⟨{ v0 := v0, v1 := v1, data := d }, ?_, Or.inr rfl⟩
            rw [hfind_new, if_pos rfl]
        · rw [show assocFind vid (assocUpdate v1 (fun vtx => { vtx with edges := vtx.edges ++ [g.nextId] })
              (assocUpdate v0 (fun vtx => { vtx with edges := vtx.edges ++ [g.nextId] }) g.vheap))
              = assocFind vid g.vheap from by
            rw [assocFind_update_ne vid v1 hv1, assocFind_update_ne vid v0 hv0]] at hfind
          obtain ⟨e, he, hend⟩ := hwf.listed_wf vid vtx hfind eid hin
          have heidlt := hwf.eid_lt_of_find he
          refine ⟨e, ?_, hend⟩
          rw [hfind_new, if_neg (by omega)]
          exact he
    case no_self =>
      intro eid e hfind
      dsimp only at hfind
      rw [assocFind_cons] at hfind
      by_cases he : g.nextId = eid
      · rw [if_pos he] at hfind
        injection hfind with hfind
        rw [← hfind]
        exact hvne
      · rw [if_neg he] at hfind
        exact hwf.no_self eid e hfind
    case size_eq => exact hwf.size_eq
    case two_sided =>
      intro eid e hfind
      dsimp only at hfind
      have hfind0 : assocFind v0 (assocUpdate v1 (fun vtx => { vtx with edges := vtx.edges ++ [g.nextId] })
          (assocUpdate v0 (fun vtx => { vtx with edges := vtx.edges ++ [g.nextId] }) g.vheap))
          = some { vtx0 with edges := vtx0.edges ++ [g.nextId] } := by
        rw [assocFind_update_ne v0 v1 hvne, assocFind_update_self, hvtx0]
        rfl
      have hfind1 : assocFind v1 (assocUpdate v1 (fun vtx => { vtx with edges := vtx.edges ++ [g.nextId] })
          (assocUpdate v0 (fun vtx => { vtx with edges := vtx.edges ++ [g.nextId] }) g.vheap))
          = some { vtx1 with edges := vtx1.edges ++ [g.nextId] } := by
        rw [assocFind_update_self, assocFind_update_ne v1 v0 (fun hc => hvne hc.symm), hvtx1]
        rfl
      have hocc0 : ∀ j, occ { g with
          vheap := assocUpdate v1 (fun vtx => { vtx with edges := vtx.edges ++ [g.nextId] })
                     (assocUpdate v0 (fun vtx => { vtx with edges := vtx.edges ++ [g.nextId] }) g.vheap)
          eheap := (g.nextId, { v0 := v0, v1 := v1, data := d }) :: g.eheap
          nextId := g.nextId + 1 } v0 j
          = vtx0.edges.count j + (if g.nextId = j then 1 else 0) := by
        intro j
        rw [occ_of_find (g := { g with
          vheap := assocUpdate v1 (fun vtx => { vtx with edges := vtx.edges ++ [g.nextId] })
                     (assocUpdate v0 (fun vtx => { vtx with edges := vtx.edges ++ [g.nextId] }) g.vheap)
          eheap := (g.nextId, { v0 := v0, v1 := v1, data := d }) :: g.eheap
          nextId := g.nextId + 1 }) hfind0]
        exact count_append_single vtx0.edges g.nextId j
      have hocc1 : ∀ j, occ { g with
          vheap := assocUpdate v1 (fun vtx => { vtx with edges := vtx.edges ++ [g.nextId] })
                     (assocUpdate v0 (fun vtx => { vtx with edges := vtx.edges ++ [g.nextId] }) g.vheap)
          eheap := (g.nextId, { v0 := v0, v1 := v1, data := d }) :: g.eheap
          nextId := g.nextId + 1 } v1 j
          = vtx1.edges.count j + (if g.nextId = j then 1 else 0) := by
        intro j
        rw [occ_of_find (g := { g with
          vheap := assocUpdate v1 (fun vtx => { vtx with edges := vtx.edges ++ [g.nextId] })
                     (assocUpdate v0 (fun vtx => { vtx with edges := vtx.edges ++ [g.nextId] }) g.vheap)
          eheap := (g.nextId, { v0 := v0, v1 := v1, data := d }) :: g.eheap
          nextId := g.nextId + 1 }) hfind1]
        exact count_append_single vtx1.edges g.nextId j
      have hoccw : ∀ w, w ≠ v0 → w ≠ v1 → ∀ j, occ { g with
          vheap := assocUpdate v1 (fun vtx => { vtx with edges := vtx.edges ++ [g.nextId] })
                     (assocUpdate v0 (fun vtx => { vtx with edges := vtx.edges ++ [g.nextId] }) g.vheap)
          eheap := (g.nextId, { v0 := v0, v1 := v1, data := d }) :: g.eheap
          nextId := g.nextId + 1 } w j = occ g w j := by
        intro w hw0 hw1 j
        have hfindw : assocFind w (assocUpdate v1 (fun vtx => { vtx with edges := vtx.edges ++ [g.nextId] })
            (assocUpdate v0 (fun vtx => { vtx with edges := vtx.edges ++ [g.nextId] }) g.vheap))
            = assocFind w g.vheap := by
          rw [assocFind_update_ne w v1 hw1, assocFind_update_ne w v0 hw0]
        simp only [occ]
        rw [hfindw]
      have hlive : ∀ w, isLiveB { g with
          vheap := assocUpdate v1 (fun vtx => { vtx with edges := vtx.edges ++ [g.nextId] })
                     (assocUpdate v0 (fun vtx => { vtx with edges := vtx.edges ++ [g.nextId] }) g.vheap)
          eheap := (g.nextId, { v0 := v0, v1 := v1, data := d }) :: g.eheap
          nextId := g.nextId + 1 } w = isLiveB g w := fun w => rfl
      rw [assocFind_cons] at hfind
      by_cases he : g.nextId = eid
      · rw [if_pos he] at hfind
        injection hfind with hfind
        subst he
        left
        rw [← hfind]
        have hfresh0 : vtx0.edges.count g.nextId = 0 :=
          List.count_eq_zero.mpr (hwf.fresh_eid_not_listed hvtx0)
        have hfresh1 : vtx1.edges.count g.nextId = 0 :=
          List.count_eq_zero.mpr (hwf.fresh_eid_not_listed hvtx1)
        refine ⟨?_, ?_, ?_, ?_, ?_⟩
        · rw [hlive]
          exact (isLiveB_iff g v0).mpr ⟨k0, assocFind_mem h0⟩
        · rw [hlive]
          exact (isLiveB_iff g v1).mpr ⟨k1, assocFind_mem h1⟩
        · rw [hocc0, hfresh0, if_pos rfl]
        · rw [hocc1, hfresh1, if_pos rfl]
        · intro w hw0 hw1
          rw [hoccw w hw0 hw1]
          rcases hv : assocFind w g.vheap with _ | vtxw
          · exact occ_of_none hv _
          · rw [occ_of_find hv]
            exact List.count_eq_zero.mpr (hwf.fresh_eid_not_listed hv)
      · rw [if_neg he] at hfind
        have heidlt := hwf.eid_lt_of_find hfind
        have hocc_pres : ∀ w, occ { g with
            vheap := assocUpdate v1 (fun vtx => { vtx with edges := vtx.edges ++ [g.nextId] })
                       (assocUpdate v0 (fun vtx => { vtx with edges := vtx.edges ++ [g.nextId] }) g.vheap)
            eheap := (g.nextId, { v0 := v0, v1 := v1, data := d }) :: g.eheap
            nextId := g.nextId + 1 } w eid = occ g w eid := by
          intro w
          by_cases hw0 : w = v0
          · subst hw0
            rw [hocc0, if_neg (by omega), occ_of_find hvtx0]
            omega
          · by_cases hw1 : w = v1
            · subst hw1
              rw [hocc1, if_neg (by omega), occ_of_find hvtx1]
              omega
            · exact hoccw w hw0 hw1 eid
        rcases hwf.two_sided eid e hfind with ⟨hl0, hl1, ho0, ho1, hoth⟩ | hdet
        · left
          refine ⟨?_, ?_, ?_, ?_, ?_⟩
          · rw [hlive]
            exact hl0
          · rw [hlive]
            exact hl1
          · rw [hocc_pres]
            exact ho0
          · rw [hocc_pres]
            exact ho1
          · intro w hw0 hw1
            rw [hocc_pres]
            exact hoth w hw0 hw1
        · right
          intro w
          rw [hocc_pres]
          exact hdet w

/-! ### Preservation: detaching one edge (shared by removeEdge and removeVertex) -/

theorem WF_detach {g g2 : Graph} (hwf : WF g) {eid : Nat}
    (hverts : g2.vertices = g.vertices)
    (heheap : g2.eheap = g.eheap)
    (hsize : g2.size = g.size)
    (hnext : g2.nextId = g.nextId)
    (hfst : g2.vheap.map Prod.fst = g.vheap.map Prod.fst)
    (hocc_eid : ∀ w, occ g2 w eid = 0)
    (hocc_other : ∀ j, j ≠ eid → ∀ w, occ g2 w j = occ g w j)
    (hsub : ∀ w vtx2, assocFind w g2.vheap = some vtx2 →
      ∃ vtx, assocFind w g.vheap = some vtx ∧ ∀ x ∈ vtx2.edges, x ∈ vtx.edges) :
    WF g2 := by
  constructor
  case keys_nodup =>
    rw [hverts]
    exact hwf.keys_nodup
  case vids_nodup =>
    rw [hverts]
    exact hwf.vids_nodup
  case vheap_nodup =>
    rw [hfst]
    exact hwf.vheap_nodup
  case eheap_nodup =>
    rw [heheap]
    exact hwf.eheap_nodup
  case live_vertex =>
    intro k vid hmem
    rw [hverts] at hmem
    rw [assocFind_isSome_congr hfst]
    exact hwf.live_vertex k vid hmem
  case vid_lt =>
    intro vid hmem
    rw [hfst] at hmem
    rw [hnext]
    exact hwf.vid_lt vid hmem
  case eid_lt =>
    intro j hmem
    rw [heheap] at hmem
    rw [hnext]
    exact hwf.eid_lt j hmem
  case listed_wf =>
    intro w vtx2 hfind j hin
    obtain ⟨vtx, hvtx, hsup⟩ := hsub w vtx2 hfind
    obtain ⟨e, he, hend⟩ := hwf.listed_wf w vtx hvtx j (hsup j hin)
    refine ⟨e, ?_, hend⟩
    rw [heheap]
    exact he
  case no_self =>
    intro j e hfind
    rw [heheap] at hfind
    exact hwf.no_self j e hfind
  case two_sided =>
    intro j e hfind
    rw [heheap] at hfind
    by_cases hj : j = eid
    · right
      intro w
      rw [hj]
      exact hocc_eid w
    · have hliveb : ∀ w, isLiveB g2 w = isLiveB g w := isLiveB_congr hverts
      rcases hwf.two_sided j e hfind with ⟨hl0, hl1, ho0, ho1, hoth⟩ | hdet
      · left
        refine ⟨?_, ?_, ?_, ?_, ?_⟩
        · rw [hliveb]
          exact hl0
        · rw [hliveb]
          exact hl1
        · rw [hocc_other j hj]
          exact ho0
        · rw [hocc_other j hj]
          exact ho1
        · intro w hw0 hw1
          rw [hocc_other j hj]
          exact hoth w hw0 hw1
      · right
        intro w
        rw [hocc_other j hj]
        exact hdet w
  case size_eq =>
    rw [hsize, hverts]
    exact hwf.size_eq

theorem listedB_eq_false_of_occ {g : Graph} (hnd : (g.vheap.map Prod.fst).Nodup)
    {eid : Nat} (hocc : ∀ w, occ g w eid = 0) : listedB g eid = false := by
  rcases hl : listedB g eid with _ | _
  · rfl
  · obtain ⟨w, hw⟩ := (listedB_iff hnd eid).mp hl
    rw [hocc w] at hw
    omega

theorem attachedCount_detach {g g2 : Graph} (hwf : WF g) (hwf2 : WF g2) {eid : Nat}
    (heheap : g2.eheap = g.eheap)
    (hmem : eid ∈ g.eheap.map Prod.fst)
    (hlist1 : listedB g eid = true)
    (hocc_eid : ∀ w, occ g2 w eid = 0)
    (hocc_other : ∀ j, j ≠ eid → ∀ w, occ g2 w j = occ g w j) :
    attachedCount g2 + 1 = attachedCount g := by
  have hlist2 : listedB g2 eid = false := listedB_eq_false_of_occ hwf2.vheap_nodup hocc_eid
  unfold attachedCount
  rw [heheap]
  apply length_filter_flip g.eheap eid hwf.eheap_nodup
  · intro x hx hxne
    exact (listedB_congr hwf2.vheap_nodup hwf.vheap_nodup
      (fun w => hocc_other x.1 hxne w)).symm
  · intro x hx hxe
    rw [hxe]
    exact ⟨hlist1, hlist2⟩
  · exact hmem

theorem mem_of_getElemOpt {l : List Nat} {i a : Nat} (h : l[i]? = some a) : a ∈ l := by
  obtain ⟨h2, rfl⟩ := List.getElem?_eq_some.mp h
  exact List.getElem_mem h2

theorem edgeTouches_true {g : Graph} {eid target : Nat} (h : edgeTouches g eid target = true) :
    ∃ e, assocFind eid g.eheap = some e ∧ (e.v0 = target ∨ e.v1 = target) := by
  unfold edgeTouches at h
  rcases hf : assocFind eid g.eheap with _ | e
  · rw [hf] at h
    cases h
  · rw [hf] at h
    refine ⟨e, rfl, ?_⟩
    simpa using h

theorem edgeTouches_of_parts {g : Graph} {eid target : Nat} {e : Edge}
    (hf : assocFind eid g.eheap = some e) (h : e.v0 = target ∨ e.v1 = target) :
    edgeTouches g eid target = true := by
  unfold edgeTouches
  rw [hf]
  simpa using h

theorem endpoints_of_touch {g : Graph} (hwf : WF g) {v0 v1 eid : Nat} {vtx0 : Vertex} {e : Edge}
    (hvtx0 : assocFind v0 g.vheap = some vtx0) (hin : eid ∈ vtx0.edges)
    (he : assocFind eid g.eheap = some e) (htouch : e.v0 = v1 ∨ e.v1 = v1)
    (hvne : v0 ≠ v1) :
    (e.v0 = v0 ∧ e.v1 = v1) ∨ (e.v0 = v1 ∧ e.v1 = v0) := by
  obtain ⟨e', he', hend⟩ := hwf.listed_wf v0 vtx0 hvtx0 eid hin
  rw [he] at he'
  injection he' with he'
  rw [← he'] at hend
  rcases hend with h0 | h1
  · rcases htouch with ht0 | ht1
    · exact absurd (h0.trans ht0) hvne
    · exact Or.inl ⟨h0.symm, ht1⟩
  · rcases htouch with ht0 | ht1
    · exact Or.inr ⟨ht0, h1.symm⟩
    · exact absurd (h1.trans ht1) hvne

theorem attached_of_listed {g : Graph} (hwf : WF g) {v0 eid : Nat} {vtx0 : Vertex} {e : Edge}
    (hvtx0 : assocFind v0 g.vheap = some vtx0) (hin : eid ∈ vtx0.edges)
    (he : assocFind eid g.eheap = some e) :
    isLiveB g e.v0 = true ∧ isLiveB g e.v1 = true ∧
    occ g e.v0 eid = 1 ∧ occ g e.v1 eid = 1 ∧
    (∀ w, w ≠ e.v0 → w ≠ e.v1 → occ g w eid = 0) := by
  rcases hwf.two_sided eid e he with h | hdet
  · exact h
  · exfalso
    have hz := hdet v0
    rw [occ_of_find hvtx0] at hz
    have hpos := List.count_pos_iff.mpr hin
    omega

theorem scan_eq_some_of_mem {l : List Nat} {eid : Nat} (hm : eid ∈ l) :
    ∃ j, scanIdx (fun x => x == eid) l = some j ∧
      ∃ hj : j < l.length, l[j] = eid := by
  have hsome := scanIdx_isSome_of_mem (p := fun x => x == eid) hm (by simp)
  rcases hs : scanIdx (fun x => x == eid) l with _ | j
  · rw [hs] at hsome
    cases hsome
  · obtain ⟨x, hx, hpx, _⟩ := scanIdx_some hs
    have hxeq : x = eid := by simpa using hpx
    obtain ⟨hj, hget⟩ := List.getElem?_eq_some.mp hx
    exact ⟨j, rfl, hj, by rw [hget, hxeq]⟩

/-! ### Preservation: removeEdge -/

theorem removeEdge_spec {g : Graph} (hwf : WF g) {k0 k1 v0 v1 i eid : Nat} {vtx0 : Vertex}
    (hne : k0 ≠ k1)
    (h0 : assocFind k0 g.vertices = some v0) (h1 : assocFind k1 g.vertices = some v1)
    (hvtx0 : assocFind v0 g.vheap = some vtx0)
    (hscan : scanIdx (fun j => edgeTouches g j v1) vtx0.edges = some i)
    (hget : vtx0.edges[i]? = some eid) :
    ∃ g2 e, removeEdge g k0 k1 = .ok g2 ∧ WF g2 ∧
      g2.vertices = g.vertices ∧ g2.eheap = g.eheap ∧ g2.size = g.size ∧
      g2.nextId = g.nextId ∧ g2.vheap.map Prod.fst = g.vheap.map Prod.fst ∧
      (∀ w, occ g2 w eid = 0) ∧
      (∀ j, j ≠ eid → ∀ w, occ g2 w j = occ g w j) ∧
      attachedCount g2 + 1 = attachedCount g ∧
      assocFind eid g.eheap = some e ∧
      ((e.v0 = v0 ∧ e.v1 = v1) ∨ (e.v0 = v1 ∧ e.v1 = v0)) := by
  have hvne : v0 ≠ v1 := hwf.vids_distinct h0 h1 hne
  obtain ⟨hi, hgeti⟩ := List.getElem?_eq_some.mp hget
  have hin0 : eid ∈ vtx0.edges := mem_of_getElemOpt hget
  obtain ⟨x, hx, hpx, _⟩ := scanIdx_some hscan
  rw [hget] at hx
  injection hx with hx
  rw [← hx] at hpx
  obtain ⟨e, he, htouch⟩ := edgeTouches_true hpx
  have hend := endpoints_of_touch hwf hvtx0 hin0 he htouch hvne
  obtain ⟨hl0, hl1, ho0, ho1, hoth⟩ := attached_of_listed hwf hvtx0 hin0 he
  have hoccv0 : occ g v0 eid = 1 := by
    rcases hend with ⟨ha, hb⟩ | ⟨ha, hb⟩
    · rw [← ha]
      exact ho0
    · rw [← hb]
      exact ho1
  have hoccv1 : occ g v1 eid = 1 := by
    rcases hend with ⟨ha, hb⟩ | ⟨ha, hb⟩
    · rw [← hb]
      exact ho1
    · rw [← ha]
      exact ho0
  have hoth2 : ∀ w, w ≠ v0 → w ≠ v1 → occ g w eid = 0 := by
    intro w hw0 hw1
    rcases hend with ⟨ha, hb⟩ | ⟨ha, hb⟩
    · exact hoth w (by rw [ha]; exact hw0) (by rw [hb]; exact hw1)
    · exact hoth w (by rw [ha]; exact hw1) (by rw [hb]; exact hw0)
  obtain ⟨vtx1, hvtx1⟩ : ∃ vtx, assocFind v1 g.vheap = some vtx := by
    have hsome := hwf.live_vertex k1 v1 (assocFind_mem h1)
    rcases hf : assocFind v1 g.vheap with _ | vtx
    · rw [hf] at hsome
      cases hsome
    · exact ⟨vtx, rfl⟩
  have hcount1 : vtx1.edges.count eid = 1 := by
    have hc := hoccv1
    rw [occ_of_find hvtx1] at hc
    exact hc
  have hcount0 : vtx0.edges.count eid = 1 := by
    have hc := hoccv0
    rw [occ_of_find hvtx0] at hc
    exact hc
  have hin1 : eid ∈ vtx1.edges := List.count_pos_iff.mp (by omega)
  obtain ⟨j, hscan2, hj, hgetj⟩ := scan_eq_some_of_mem hin1
  have hfindv1g1 : assocFind v1
      (assocUpdate v0 (fun vtx => { vtx with edges := swapRemove vtx.edges i }) g.vheap)
      = some vtx1 := by
    rw [assocFind_update_ne v1 v0 (fun hc => hvne hc.symm), hvtx1]
  have hok : removeEdge g k0 k1 = .ok { g with
      vheap := assocUpdate v1 (fun vtx => { vtx with edges := swapRemove vtx.edges j })
        (assocUpdate v0 (fun vtx => { vtx with edges := swapRemove vtx.edges i }) g.vheap) } := by
    simp [removeEdge, hne, h0, h1, hvtx0, hscan, hget, hfindv1g1, hscan2]
  have hfind0 : assocFind v0
      (assocUpdate v1 (fun vtx => { vtx with edges := swapRemove vtx.edges j })
        (assocUpdate v0 (fun vtx => { vtx with edges := swapRemove vtx.edges i }) g.vheap))
      = some { vtx0 with edges := swapRemove vtx0.edges i } := by
    rw [assocFind_update_ne v0 v1 hvne, assocFind_update_self, hvtx0]
    rfl
  have hfind1 : assocFind v1
      (assocUpdate v1 (fun vtx => { vtx with edges := swapRemove vtx.edges j })
        (assocUpdate v0 (fun vtx => { vtx with edges := swapRemove vtx.edges i }) g.vheap))
      = some { vtx1 with edges := swapRemove vtx1.edges j } := by
    rw [assocFind_update_self, hfindv1g1]
    rfl
  have hfindw : ∀ w, w ≠ v0 → w ≠ v1 → assocFind w
      (assocUpdate v1 (fun vtx => { vtx with edges := swapRemove vtx.edges j })
        (assocUpdate v0 (fun vtx => { vtx with edges := swapRemove vtx.edges i }) g.vheap))
      = assocFind w g.vheap := by
    intro w hw0 hw1
    rw [assocFind_update_ne w v1 hw1, assocFind_update_ne w v0 hw0]
  have hocc_eid : ∀ w, occ { g with
      vheap := assocUpdate v1 (fun vtx => { vtx with edges := swapRemove vtx.edges j })
        (assocUpdate v0 (fun vtx => { vtx with edges := swapRemove vtx.edges i }) g.vheap) } w eid = 0 := by
    intro w
    by_cases hw0 : w = v0
    · rw [hw0]
      rw [occ_of_find (g := { g with
        vheap := assocUpdate v1 (fun vtx => { vtx with edges := swapRemove vtx.edges j })
          (assocUpdate v0 (fun vtx => { vtx with edges := swapRemove vtx.edges i }) g.vheap) }) hfind0]
      show (swapRemove vtx0.edges i).count eid = 0
      have hsw := swapRemove_count hi eid
      rw [hgeti] at hsw
      simp at hsw
      omega
    · by_cases hw1 : w = v1
      · rw [hw1]
        rw [occ_of_find (g := { g with
          vheap := assocUpdate v1 (fun vtx => { vtx with edges := swapRemove vtx.edges j })
            (assocUpdate v0 (fun vtx => { vtx with edges := swapRemove vtx.edges i }) g.vheap) }) hfind1]
        show (swapRemove vtx1.edges j).count eid = 0
        have hsw := swapRemove_count hj eid
        rw [hgetj] at hsw
        simp at hsw
        omega
      · have hz := hoth2 w hw0 hw1
        simp only [occ] at hz ⊢
        rw [hfindw w hw0 hw1]
        exact hz
  have hocc_other : ∀ j2, j2 ≠ eid → ∀ w, occ { g with
      vheap := assocUpdate v1 (fun vtx => { vtx with edges := swapRemove vtx.edges j })
        (assocUpdate v0 (fun vtx => { vtx with edges := swapRemove vtx.edges i }) g.vheap) } w j2
      = occ g w j2 := by
    intro j2 hj2 w
    by_cases hw0 : w = v0
    · rw [hw0]
      rw [occ_of_find (g := { g with
        vheap := assocUpdate v1 (fun vtx => { vtx with edges := swapRemove vtx.edges j })
          (assocUpdate v0 (fun vtx => { vtx with edges := swapRemove vtx.edges i }) g.vheap) }) hfind0,
        occ_of_find hvtx0]
      exact swapRemove_count_other hi (by rw [hgeti]; exact fun hc => hj2 hc.symm)
    · by_cases hw1 : w = v1
      · rw [hw1]
        rw [occ_of_find (g := { g with
          vheap := assocUpdate v1 (fun vtx => { vtx with edges := swapRemove vtx.edges j })
            (assocUpdate v0 (fun vtx => { vtx with edges := swapRemove vtx.edges i }) g.vheap) }) hfind1,
          occ_of_find hvtx1]
        exact swapRemove_count_other hj (by rw [hgetj]; exact fun hc => hj2 hc.symm)
      · simp only [occ]
        rw [hfindw w hw0 hw1]
  have hsub : ∀ w vtx2, assocFind w
      (assocUpdate v1 (fun vtx => { vtx with edges := swapRemove vtx.edges j })
        (assocUpdate v0 (fun vtx => { vtx with edges := swapRemove vtx.edges i }) g.vheap)) = some vtx2 →
      ∃ vtx, assocFind w g.vheap = some vtx ∧ ∀ x ∈ vtx2.edges, x ∈ vtx.edges := by
    intro w vtx2 hfindw2
    by_cases hw0 : w = v0
    · rw [hw0] at hfindw2 ⊢
      rw [hfind0] at hfindw2
      injection hfindw2 with hfindw2
      refine ⟨vtx0, hvtx0, ?_⟩
      intro x hxmem
      rw [← hfindw2] at hxmem
      exact swapRemove_subset hi hxmem
    · by_cases hw1 : w = v1
      · rw [hw1] at hfindw2 ⊢
        rw [hfind1] at hfindw2
        injection hfindw2 with hfindw2
        refine ⟨vtx1, hvtx1, ?_⟩
        intro x hxmem
        rw [← hfindw2] at hxmem
        exact swapRemove_subset hj hxmem
      · rw [hfindw w hw0 hw1] at hfindw2
        exact ⟨vtx2, hfindw2, fun x hxmem => hxmem⟩
  have hfst : (assocUpdate v1 (fun vtx => { vtx with edges := swapRemove vtx.edges j })
      (assocUpdate v0 (fun vtx => { vtx with edges := swapRemove vtx.edges i }) g.vheap)).map Prod.fst
      = g.vheap.map Prod.fst := by
    rw [assocUpdate_map_fst, assocUpdate_map_fst]
  have hwf2 : WF { g with
      vheap := assocUpdate v1 (fun vtx => { vtx with edges := swapRemove vtx.edges j })
        (assocUpdate v0 (fun vtx => { vtx with edges := swapRemove vtx.edges i }) g.vheap) } :=
    WF_detach hwf rfl rfl rfl rfl hfst hocc_eid hocc_other hsub
  have hmemeid : eid ∈ g.eheap.map Prod.fst := by
    rw [← assocFind_isSome_iff]
    simp [he]
  have hlist1 : listedB g eid = true :=
    (listedB_iff hwf.vheap_nodup eid).mpr ⟨v0, by omega⟩
  have hattach : attachedCount { g with
      vheap := assocUpdate v1 (fun vtx => { vtx with edges := swapRemove vtx.edges j })
        (assocUpdate v0 (fun vtx => { vtx with edges := swapRemove vtx.edges i }) g.vheap) } + 1
      = attachedCount g :=
    attachedCount_detach hwf hwf2 rfl hmemeid hlist1 hocc_eid hocc_other
  exact ⟨_, e, hok, hwf2, rfl, rfl, rfl, rfl, hfst, hocc_eid, hocc_other, hattach, he, hend⟩

/-! ### Preservation: one pass of the removeVertex detachment loop -/

theorem detach_step_spec {g : Graph} (hwf : WF g) {vid conn eid : Nat} {vtx : Vertex} {e : Edge}
    (hvtx : assocFind vid g.vheap = some vtx)
    (hlast : vtx.edges.getLast? = some eid)
    (he : assocFind eid g.eheap = some e)
    (hconn_ne : conn ≠ vid)
    (hocc_vid : occ g vid eid = 1)
    (hocc_conn : occ g conn eid = 1)
    (hoth : ∀ w, w ≠ vid → w ≠ conn → occ g w eid = 0)
    (hlive_conn : isLiveB g conn = true) :
    ∃ cvtx j,
      assocFind conn (assocUpdate vid (fun v => { v with edges := v.edges.dropLast }) g.vheap)
        = some cvtx ∧
      scanIdx (fun x => x == eid) cvtx.edges = some j ∧
      WF { g with
            vheap := assocUpdate conn (fun v => { v with edges := swapRemove v.edges j })
              (assocUpdate vid (fun v => { v with edges := v.edges.dropLast }) g.vheap) } ∧
      assocFind vid (assocUpdate conn (fun v => { v with edges := swapRemove v.edges j })
          (assocUpdate vid (fun v => { v with edges := v.edges.dropLast }) g.vheap))
        = some { vtx with edges := vtx.edges.dropLast } ∧
      (assocUpdate conn (fun v => { v with edges := swapRemove v.edges j })
          (assocUpdate vid (fun v => { v with edges := v.edges.dropLast }) g.vheap)).map Prod.fst
        = g.vheap.map Prod.fst ∧
      attachedCount { g with
            vheap := assocUpdate conn (fun v => { v with edges := swapRemove v.edges j })
              (assocUpdate vid (fun v => { v with edges := v.edges.dropLast }) g.vheap) } + 1
        = attachedCount g := by
  obtain ⟨cvtx, hcvtx⟩ := hwf.live_find hlive_conn
  have hfind_conn_g1 : assocFind conn
      (assocUpdate vid (fun v => { v with edges := v.edges.dropLast }) g.vheap) = some cvtx := by
    rw [assocFind_update_ne conn vid hconn_ne, hcvtx]
  have hcount_conn : cvtx.edges.count eid = 1 := by
    have hc := hocc_conn
    rw [occ_of_find hcvtx] at hc
    exact hc
  have hcount_vid : vtx.edges.count eid = 1 := by
    have hc := hocc_vid
    rw [occ_of_find hvtx] at hc
    exact hc
  have hin_conn : eid ∈ cvtx.edges := List.count_pos_iff.mp (by omega)
  obtain ⟨j, hscan2, hj, hgetj⟩ := scan_eq_some_of_mem hin_conn
  have hdropcount : ∀ x, vtx.edges.dropLast.count x + (if eid = x then 1 else 0)
      = vtx.edges.count x := fun x => count_dropLast_getLast hlast x
  have hfind_vid2 : assocFind vid (assocUpdate conn (fun v => { v with edges := swapRemove v.edges j })
      (assocUpdate vid (fun v => { v with edges := v.edges.dropLast }) g.vheap))
      = some { vtx with edges := vtx.edges.dropLast } := by
    rw [assocFind_update_ne vid conn (fun hc => hconn_ne hc.symm),
      assocFind_update_self, hvtx]
    rfl
  have hfind_conn2 : assocFind conn (assocUpdate conn (fun v => { v with edges := swapRemove v.edges j })
      (assocUpdate vid (fun v => { v with edges := v.edges.dropLast }) g.vheap))
      = some { cvtx with edges := swapRemove cvtx.edges j } := by
    rw [assocFind_update_self, hfind_conn_g1]
    rfl
  have hfind_w2 : ∀ w, w ≠ vid → w ≠ conn →
      assocFind w (assocUpdate conn (fun v => { v with edges := swapRemove v.edges j })
        (assocUpdate vid (fun v => { v with edges := v.edges.dropLast }) g.vheap))
      = assocFind w g.vheap := by
    intro w hwv hwc
    rw [assocFind_update_ne w conn hwc, assocFind_update_ne w vid hwv]
  have hocc_eid : ∀ w, occ { g with
      vheap := assocUpdate conn (fun v => { v with edges := swapRemove v.edges j })
        (assocUpdate vid (fun v => { v with edges := v.edges.dropLast }) g.vheap) } w eid = 0 := by
    intro w
    by_cases hwv : w = vid
    · rw [hwv]
      rw [occ_of_find (g := { g with
        vheap := assocUpdate conn (fun v => { v with edges := swapRemove v.edges j })
          (assocUpdate vid (fun v => { v with edges := v.edges.dropLast }) g.vheap) }) hfind_vid2]
      show vtx.edges.dropLast.count eid = 0
      have hd := hdropcount eid
      simp at hd
      omega
    · by_cases hwc : w = conn
      · rw [hwc]
        rw [occ_of_find (g := { g with
          vheap := assocUpdate conn (fun v => { v with edges := swapRemove v.edges j })
            (assocUpdate vid (fun v => { v with edges := v.edges.dropLast }) g.vheap) }) hfind_conn2]
        show (swapRemove cvtx.edges j).count eid = 0
        have hsw := swapRemove_count hj eid
        rw [hgetj] at hsw
        simp at hsw
        omega
      · have hz := hoth w hwv hwc
        simp only [occ] at hz ⊢
        rw [hfind_w2 w hwv hwc]
        exact hz
  have hocc_other : ∀ j2, j2 ≠ eid → ∀ w, occ { g with
      vheap := assocUpdate conn (fun v => { v with edges := swapRemove v.edges j })
        (assocUpdate vid (fun v => { v with edges := v.edges.dropLast }) g.vheap) } w j2
      = occ g w j2 := by
    intro j2 hj2 w
    by_cases hwv : w = vid
    · rw [hwv]
      rw [occ_of_find (g := { g with
        vheap := assocUpdate conn (fun v => { v with edges := swapRemove v.edges j })
          (assocUpdate vid (fun v => { v with edges := v.edges.dropLast }) g.vheap) }) hfind_vid2,
        occ_of_find hvtx]
      show vtx.edges.dropLast.count j2 = vtx.edges.count j2
      have hd := hdropcount j2
      rw [if_neg (fun hc => hj2 hc.symm)] at hd
      omega
    · by_cases hwc : w = conn
      · rw [hwc]
        rw [occ_of_find (g := { g with
          vheap := assocUpdate conn (fun v => { v with edges := swapRemove v.edges j })
            (assocUpdate vid (fun v => { v with edges := v.edges.dropLast }) g.vheap) }) hfind_conn2,
          occ_of_find hcvtx]
        exact swapRemove_count_other hj (by rw [hgetj]; exact fun hc => hj2 hc.symm)
      · simp only [occ]
        rw [hfind_w2 w hwv hwc]
  have hsub : ∀ w vtx2, assocFind w (assocUpdate conn (fun v => { v with edges := swapRemove v.edges j })
      (assocUpdate vid (fun v => { v with edges := v.edges.dropLast }) g.vheap)) = some vtx2 →
      ∃ vtxw, assocFind w g.vheap = some vtxw ∧ ∀ x ∈ vtx2.edges, x ∈ vtxw.edges := by
    intro w vtx2 hfindw2
    by_cases hwv : w = vid
    · rw [hwv] at hfindw2 ⊢
      rw [hfind_vid2] at hfindw2
      injection hfindw2 with hfindw2
      refine ⟨vtx, hvtx, ?_⟩
      intro x hxmem
      rw [← hfindw2] at hxmem
      exact (List.dropLast_sublist vtx.edges).subset hxmem
    · by_cases hwc : w = conn
      · rw [hwc] at hfindw2 ⊢
        rw [hfind_conn2] at hfindw2
        injection hfindw2 with hfindw2
        refine ⟨cvtx, hcvtx, ?_⟩
        intro x hxmem
        rw [← hfindw2] at hxmem
        exact swapRemove_subset hj hxmem
      · rw [hfind_w2 w hwv hwc] at hfindw2
        exact ⟨vtx2, hfindw2, fun x hxmem => hxmem⟩
  have hfst : (assocUpdate conn (fun v => { v with edges := swapRemove v.edges j })
      (assocUpdate vid (fun v => { v with edges := v.edges.dropLast }) g.vheap)).map Prod.fst
      = g.vheap.map Prod.fst := by
    rw [assocUpdate_map_fst, assocUpdate_map_fst]
  have hwf2 : WF { g with
      vheap := assocUpdate conn (fun v => { v with edges := swapRemove v.edges j })
        (assocUpdate vid (fun v => { v with edges := v.edges.dropLast }) g.vheap) } :=
    WF_detach hwf rfl rfl rfl rfl hfst hocc_eid hocc_other hsub
  have hmemeid : eid ∈ g.eheap.map Prod.fst := by
    rw [← assocFind_isSome_iff]
    simp [he]
  have hlist1 : listedB g eid = true :=
    (listedB_iff hwf.vheap_nodup eid).mpr ⟨conn, by omega⟩
  have hattach : attachedCount { g with
      vheap := assocUpdate conn (fun v => { v with edges := swapRemove v.edges j })
        (assocUpdate vid (fun v => { v with edges := v.edges.dropLast }) g.vheap) } + 1
      = attachedCount g :=
    attachedCount_detach hwf hwf2 rfl hmemeid hlist1 hocc_eid hocc_other
  exact ⟨cvtx, j, hfind_conn_g1, hscan2, hwf2, hfind_vid2, hfst, hattach⟩

/-! ### Preservation: the removeVertex loop and removeVertex -/

theorem removeVertexLoop_spec :
    ∀ (fuel : Nat) (g : Graph) (vid : Nat) (vtx : Vertex), WF g → isLiveB g vid = true →
      assocFind vid g.vheap = some vtx → vtx.edges.length ≤ fuel →
      ∃ g2 vtx2, removeVertexLoop fuel g vid = .ok g2 ∧ WF g2 ∧
        g2.vertices = g.vertices ∧ g2.eheap = g.eheap ∧ g2.size = g.size ∧
        g2.nextId = g.nextId ∧ g2.vheap.map Prod.fst = g.vheap.map Prod.fst ∧
        assocFind vid g2.vheap = some vtx2 ∧ vtx2.edges = [] ∧
        attachedCount g2 + vtx.edges.length = attachedCount g := by
  intro fuel
  induction fuel with
  | zero =>
    intro g vid vtx hwf hlive hvtx hlen
    have hnil : vtx.edges = [] := List.eq_nil_of_length_eq_zero (Nat.le_zero.mp hlen)
    refine ⟨g, vtx, ?_, hwf, rfl, rfl, rfl, rfl, rfl, hvtx, hnil, by rw [hnil]; simp⟩
    simp [removeVertexLoop, hvtx, hnil]
  | succ fuel ih =>
    intro g vid vtx hwf hlive hvtx hlen
    rcases hlast : vtx.edges.getLast? with _ | eid
    · have hnil : vtx.edges = [] := List.getLast?_eq_none_iff.mp hlast
      refine ⟨g, vtx, ?_, hwf, rfl, rfl, rfl, rfl, rfl, hvtx, hnil, by rw [hnil]; simp⟩
      simp [removeVertexLoop, hvtx, hlast]
    · have hin := mem_of_getLast? hlast
      obtain ⟨e, he, hend_vid⟩ := hwf.listed_wf vid vtx hvtx eid hin
      obtain ⟨hl0, hl1, ho0, ho1, hoth⟩ := attached_of_listed hwf hvtx hin he
      have hself := hwf.no_self eid e he
      have hlenpos : 0 < vtx.edges.length := by
        rcases hv : vtx.edges with _ | ⟨a, rest⟩
        · rw [hv] at hlast
          cases hlast
        · simp [hv]
      by_cases hc : vid = e.v0
      · -- connected vertex is e.v1
        have hcond : (if vid = e.v0 then e.v1 else e.v0) = e.v1 := if_pos hc
        have hconn_ne : e.v1 ≠ vid := fun hx => hself (hc.symm.trans hx.symm)
        have hocc_vid : occ g vid eid = 1 := by
          rw [hc]
          exact ho0
        have hoth2 : ∀ w, w ≠ vid → w ≠ e.v1 → occ g w eid = 0 := by
          intro w hwv hw1
          exact hoth w (by rw [← hc]; exact hwv) hw1
        obtain ⟨cvtx, j, hconnfind, hscan2, hwf2, hfindvid2, hfst2, hattach2⟩ :=
          detach_step_spec hwf hvtx hlast he hconn_ne hocc_vid ho1 hoth2 hl1
        have hstep : removeVertexLoop (fuel + 1) g vid = removeVertexLoop fuel
            { g with
              vheap := assocUpdate e.v1 (fun v => { v with edges := swapRemove v.edges j })
                (assocUpdate vid (fun v => { v with edges := v.edges.dropLast }) g.vheap) } vid := by
          simp [removeVertexLoop, hvtx, hlast, he, hcond, hconnfind, hscan2]
        have hlive2 : isLiveB { g with
            vheap := assocUpdate e.v1 (fun v => { v with edges := swapRemove v.edges j })
              (assocUpdate vid (fun v => { v with edges := v.edges.dropLast }) g.vheap) } vid = true :=
          hlive
        have hlen2 : vtx.edges.dropLast.length ≤ fuel := by
          rw [List.length_dropLast]
          omega
        obtain ⟨g3, vtx3, hok3, hwf3, hverts3, heheap3, hsize3, hnext3, hfst3, hfind3, hnil3, hattach3⟩ :=
          ih _ vid { vtx with edges := vtx.edges.dropLast } hwf2 hlive2 hfindvid2 hlen2
        refine ⟨g3, vtx3, ?_, hwf3, hverts3, heheap3, hsize3, hnext3, hfst3.trans hfst2, hfind3, hnil3, ?_⟩
        · rw [hstep]
          exact hok3
        · have hfix : ({ vtx with edges := vtx.edges.dropLast } : Vertex).edges.length
              = vtx.edges.dropLast.length := rfl
          rw [hfix] at hattach3
          have hdl : vtx.edges.dropLast.length + 1 = vtx.edges.length := by
            rw [List.length_dropLast]
            omega
          omega
      · -- connected vertex is e.v0
        have hvid1 : vid = e.v1 := by
          rcases hend_vid with h | h
          · exact absurd h hc
          · exact h
        have hcond : (if vid = e.v0 then e.v1 else e.v0) = e.v0 := if_neg hc
        have hconn_ne : e.v0 ≠ vid := fun hx => hself (hx.trans hvid1)
        have hocc_vid : occ g vid eid = 1 := by
          rw [hvid1]
          exact ho1
        have hoth2 : ∀ w, w ≠ vid → w ≠ e.v0 → occ g w eid = 0 := by
          intro w hwv hw0
          exact hoth w hw0 (by rw [← hvid1]; exact hwv)
        obtain ⟨cvtx, j, hconnfind, hscan2, hwf2, hfindvid2, hfst2, hattach2⟩ :=
          detach_step_spec hwf hvtx hlast he hconn_ne hocc_vid ho0 hoth2 hl0
        have hstep : removeVertexLoop (fuel + 1) g vid = removeVertexLoop fuel
            { g with
              vheap := assocUpdate e.v0 (fun v => { v with edges := swapRemove v.edges j })
                (assocUpdate vid (fun v => { v with edges := v.edges.dropLast }) g.vheap) } vid := by
          simp [removeVertexLoop, hvtx, hlast, he, hcond, hconnfind, hscan2]
        have hlive2 : isLiveB { g with
            vheap := assocUpdate e.v0 (fun v => { v with edges := swapRemove v.edges j })
              (assocUpdate vid (fun v => { v with edges := v.edges.dropLast }) g.vheap) } vid = true :=
          hlive
        have hlen2 : vtx.edges.dropLast.length ≤ fuel := by
          rw [List.length_dropLast]
          omega
        obtain ⟨g3, vtx3, hok3, hwf3, hverts3, heheap3, hsize3, hnext3, hfst3, hfind3, hnil3, hattach3⟩ :=
          ih _ vid { vtx with edges := vtx.edges.dropLast } hwf2 hlive2 hfindvid2 hlen2
        refine ⟨g3, vtx3, ?_, hwf3, hverts3, heheap3, hsize3, hnext3, hfst3.trans hfst2, hfind3, hnil3, ?_⟩
        · rw [hstep]
          exact hok3
        · have hfix : ({ vtx with edges := vtx.edges.dropLast } : Vertex).edges.length
              = vtx.edges.dropLast.length := rfl
          rw [hfix] at hattach3
          have hdl : vtx.edges.dropLast.length + 1 = vtx.edges.length := by
            rw [List.length_dropLast]
            omega
          omega

theorem not_live_erase {g2 : Graph} (hwf2 : WF g2) {key vid : Nat}
    (hkey : assocFind key g2.vertices = some vid) :
    ∀ k2, (k2, vid) ∈ assocErase key g2.vertices → False := by
  intro k2 hmem
  have hmem2 : (k2, vid) ∈ g2.vertices := (assocErase_sublist key g2.vertices).subset hmem
  have hk2 : k2 = key := snd_injective_of_nodup hwf2.vids_nodup hmem2 (assocFind_mem hkey)
  have := List.mem_filter.mp hmem
  rw [hk2] at this
  simp at this

theorem WF_erase {g2 : Graph} (hwf2 : WF g2) {key vid : Nat} {vtx2 : Vertex}
    (hkey : assocFind key g2.vertices = some vid)
    (hvtx : assocFind vid g2.vheap = some vtx2)
    (hempty : vtx2.edges = []) :
    WF { g2 with vertices := assocErase key g2.vertices, size := g2.size - 1 } := by
  have hsub : (assocErase key g2.vertices).Sublist g2.vertices := assocErase_sublist key g2.vertices
  constructor
  case keys_nodup =>
    exact hwf2.keys_nodup.sublist (hsub.map Prod.fst)
  case vids_nodup =>
    exact hwf2.vids_nodup.sublist (hsub.map Prod.snd)
  case vheap_nodup => exact hwf2.vheap_nodup
  case eheap_nodup => exact hwf2.eheap_nodup
  case live_vertex =>
    intro k w hmem
    exact hwf2.live_vertex k w (hsub.subset hmem)
  case vid_lt => exact hwf2.vid_lt
  case eid_lt => exact hwf2.eid_lt
  case listed_wf => exact hwf2.listed_wf
  case no_self => exact hwf2.no_self
  case two_sided =>
    intro eid e hfind
    rcases hwf2.two_sided eid e hfind with ⟨hliv0, hliv1, ho0, ho1, hoth⟩ | hdet
    · left
      have hlive_pres : ∀ w, isLiveB g2 w = true → occ g2 w eid = 1 →
          isLiveB { g2 with vertices := assocErase key g2.vertices, size := g2.size - 1 } w = true := by
        intro w hlw hocw
        obtain ⟨k2, hk2⟩ := (isLiveB_iff g2 w).mp hlw
        have hwne : w ≠ vid := by
          intro hc
          rw [hc] at hocw
          rw [occ_of_find hvtx, hempty] at hocw
          simp at hocw
        have hk2ne : k2 ≠ key := by
          intro hc
          rw [hc] at hk2
          have : w = vid := by
            have := assocFind_eq_of_mem hwf2.keys_nodup hk2
            rw [hkey] at this
            injection this with h2
            exact h2.symm
          exact hwne this
        apply (isLiveB_iff _ w).mpr
        refine ⟨k2, ?_⟩
        show (k2, w) ∈ assocErase key g2.vertices
        exact List.mem_filter.mpr ⟨hk2, by simp [hk2ne]⟩
      refine ⟨hlive_pres e.v0 hliv0 ho0, hlive_pres e.v1 hliv1 ho1, ho0, ho1, hoth⟩
    · right
      exact hdet
  case size_eq =>
    have hlen := assocErase_length (k := key) (by simp [hkey]) hwf2.keys_nodup
    have hsize := hwf2.size_eq
    show g2.size - 1 = (assocErase key g2.vertices).length
    omega

theorem removeVertex_spec {g : Graph} (hwf : WF g) {key vid : Nat} {vtx : Vertex}
    (hkey : assocFind key g.vertices = some vid)
    (hvtx : assocFind vid g.vheap = some vtx) :
    ∃ g3, removeVertex g key = .ok g3 ∧ WF g3 ∧
      assocFind key g3.vertices = none ∧
      g3.vertices = assocErase key g.vertices ∧
      g3.size + 1 = g.size ∧
      g3.eheap = g.eheap ∧ g3.nextId = g.nextId ∧
      g3.vheap.map Prod.fst = g.vheap.map Prod.fst ∧
      attachedCount g3 + vtx.edges.length = attachedCount g ∧
      isLiveB g3 vid = false := by
  have hlive : isLiveB g vid = true := (isLiveB_iff g vid).mpr ⟨key, assocFind_mem hkey⟩
  obtain ⟨g2, vtx2, hloop, hwf2, hverts2, heheap2, hsize2, hnext2, hfst2, hfind2, hnil2, hattach2⟩ :=
    removeVertexLoop_spec vtx.edges.length g vid vtx hwf hlive hvtx (Nat.le_refl _)
  have hkey2 : assocFind key g2.vertices = some vid := by
    rw [hverts2]
    exact hkey
  have hwf3 : WF { g2 with vertices := assocErase key g2.vertices, size := g2.size - 1 } :=
    WF_erase hwf2 hkey2 hfind2 hnil2
  have hok : removeVertex g key = .ok { g2 with
      vertices := assocErase key g2.vertices, size := g2.size - 1 } := by
    simp [removeVertex, hkey, hvtx, hloop]
  have hsizepos : 0 < g.size := by
    have hs := hwf.size_eq
    have hmem : (key, vid) ∈ g.vertices := assocFind_mem hkey
    have hpos : 0 < g.vertices.length := List.length_pos.mpr (List.ne_nil_of_mem hmem)
    omega
  refine ⟨_, hok, hwf3, ?_, ?_, ?_, heheap2, hnext2, hfst2, hattach2, ?_⟩
  · show assocFind key (assocErase key g2.vertices) = none
    exact assocFind_erase_self key g2.vertices
  · show assocErase key g2.vertices = assocErase key g.vertices
    rw [hverts2]
  · show g2.size - 1 + 1 = g.size
    rw [hsize2]
    omega
  · show isLiveB { g2 with vertices := assocErase key g2.vertices, size := g2.size - 1 } vid = false
    rcases hl : isLiveB { g2 with
        vertices := assocErase key g2.vertices, size := g2.size - 1 } vid with _ | _
    · rfl
    · obtain ⟨k2, hk2⟩ := (isLiveB_iff _ vid).mp hl
      exact absurd hk2 (fun hc => not_live_erase hwf2 hkey2 k2 hc)

/-! ### Operation-level lemmas -/

theorem getEdge_inv {g : Graph} {k0 k1 eid : Nat} (h : getEdge g k0 k1 = some eid) :
    k0 ≠ k1 ∧ ∃ v0 v1 vtx0 i, assocFind k0 g.vertices = some v0 ∧
      assocFind k1 g.vertices = some v1 ∧ assocFind v0 g.vheap = some vtx0 ∧
      scanIdx (fun j => edgeTouches g j v1) vtx0.edges = some i ∧
      vtx0.edges[i]? = some eid := by
  unfold getEdge at h
  by_cases hne : k0 = k1
  · rw [if_pos hne] at h
    cases h
  · rw [if_neg hne] at h
    refine ⟨hne, ?_⟩
    rcases h0 : assocFind k0 g.vertices with _ | v0
    all_goals rw [h0] at h
    · rcases h1 : assocFind k1 g.vertices with _ | v1
      all_goals rw [h1] at h
      all_goals dsimp only at h
      · cases h
      · cases h
    · rcases h1 : assocFind k1 g.vertices with _ | v1
      all_goals rw [h1] at h
      all_goals dsimp only at h
      · cases h
      · rcases h2 : assocFind v0 g.vheap with _ | vtx0
        all_goals rw [h2] at h
        all_goals dsimp only at h
        · cases h
        · rcases h3 : scanIdx (fun j => edgeTouches g j v1) vtx0.edges with _ | i
          all_goals rw [h3] at h
          · cases h
          · exact ⟨v0, v1, vtx0, i, rfl, rfl, h2, h3, by simpa using h⟩

theorem getEdge_eq {g : Graph} {k0 k1 v0 v1 : Nat} {vtx0 : Vertex}
    (hne : k0 ≠ k1) (h0 : assocFind k0 g.vertices = some v0)
    (h1 : assocFind k1 g.vertices = some v1) (h2 : assocFind v0 g.vheap = some vtx0) :
    getEdge g k0 k1
      = (scanIdx (fun j => edgeTouches g j v1) vtx0.edges).bind (fun i => vtx0.edges[i]?) := by
  simp [getEdge, hne, h0, h1, h2]

theorem removeEdge_error_of_getEdge_none {g : Graph} {k0 k1 : Nat}
    (h : getEdge g k0 k1 = none) : removeEdge g k0 k1 = .error g := by
  unfold getEdge at h
  unfold removeEdge
  by_cases hne : k0 = k1
  · rw [if_pos hne]
  · rw [if_neg hne] at h ⊢
    rcases h0 : assocFind k0 g.vertices with _ | v0
    · rcases h1 : assocFind k1 g.vertices with _ | v1
      · simp [h0, h1]
      · simp [h0, h1]
    · rcases h1 : assocFind k1 g.vertices with _ | v1
      · simp [h0, h1]
      · simp only [h0, h1] at h ⊢
        rcases h2 : assocFind v0 g.vheap with _ | vtx0
        · simp [h2]
        · simp only [h2] at h ⊢
          rcases h3 : scanIdx (fun j => edgeTouches g j v1) vtx0.edges with _ | i
          · simp [h3]
          · simp only [h3] at h ⊢
            simp only [Option.some_bind] at h
            simp [h]

theorem removeEdge_error_eq {g : Graph} (hwf : WF g) {k0 k1 : Nat} {s : Graph}
    (h : removeEdge g k0 k1 = .error s) : s = g := by
  rcases hge : getEdge g k0 k1 with _ | eid
  · have herr := removeEdge_error_of_getEdge_none hge
    rw [herr] at h
    injection h with h
    exact h.symm
  · obtain ⟨hne, v0, v1, vtx0, i, h0, h1, h2, h3, h4⟩ := getEdge_inv hge
    obtain ⟨g2, e, hok, _⟩ := removeEdge_spec hwf hne h0 h1 h2 h3 h4
    rw [hok] at h
    cases h

theorem removeVertex_error_eq {g : Graph} (hwf : WF g) {key : Nat} {s : Graph}
    (h : removeVertex g key = .error s) : s = g := by
  rcases h0 : assocFind key g.vertices with _ | vid
  · unfold removeVertex at h
    simp only [h0] at h
    injection h with h
    exact h.symm
  · rcases h1 : assocFind vid g.vheap with _ | vtx
    · unfold removeVertex at h
      simp only [h0, h1] at h
      injection h with h
      exact h.symm
    · obtain ⟨g3, hok, _⟩ := removeVertex_spec hwf h0 h1
      rw [hok] at h
      cases h

theorem addEdge_error_eq {g : Graph} {k0 k1 d : Nat} {s : Graph}
    (h : addEdge g k0 k1 d = .error s) : s = g := by
  by_cases hne : k0 = k1
  · unfold addEdge at h
    rw [if_pos hne] at h
    injection h with h
    exact h.symm
  · rcases h0 : assocFind k0 g.vertices with _ | v0 <;>
      rcases h1 : assocFind k1 g.vertices with _ | v1 <;>
      unfold addEdge at h <;> rw [if_neg hne, h0, h1] at h
    · injection h with h
      exact h.symm
    · injection h with h
      exact h.symm
    · injection h with h
      exact h.symm
    · cases h

theorem applyOp_error_eq {g : Graph} (hwf : WF g) (op : Op) {s : Graph}
    (h : applyOp g op = .error s) : s = g := by
  match op with
  | .addV k d =>
    simp [applyOp] at h
  | .addE k0 k1 d =>
    exact addEdge_error_eq h
  | .getV k =>
    rcases h0 : getVertex g k with _ | v
    all_goals simp only [applyOp, h0] at h
    · injection h with h
      exact h.symm
    · cases h
  | .getE k0 k1 =>
    rcases h0 : getEdge g k0 k1 with _ | eid
    all_goals simp only [applyOp, h0] at h
    · injection h with h
      exact h.symm
    · cases h
  | .getK vid =>
    rcases h0 : getKey g vid with _ | k
    all_goals simp only [applyOp, h0] at h
    · injection h with h
      exact h.symm
    · cases h
  | .remV k =>
    exact removeVertex_error_eq hwf h
  | .remE k0 k1 =>
    exact removeEdge_error_eq hwf h

theorem applyOp_ok_of_precond {g : Graph} (hwf : WF g) {op : Op}
    (hp : precondOk g op = true) : ∃ g2, applyOp g op = .ok g2 ∧ WF g2 := by
  match op with
  | .addV k d =>
    refine ⟨addVertex g k d, rfl, ?_⟩
    apply WF_addVertex hwf
    have hp2 : (!(mapContains k g.vertices)) = true := hp
    rcases hm : mapContains k g.vertices with _ | _
    · rfl
    · rw [hm] at hp2
      simp at hp2
  | .addE k0 k1 d =>
    have hp2 : ((!(k0 == k1)) && mapContains k0 g.vertices && mapContains k1 g.vertices)
        = true := hp
    simp only [Bool.and_eq_true, Bool.not_eq_true', beq_eq_false_iff_ne, ne_eq] at hp2
    obtain ⟨⟨hne2, hc0⟩, hc1⟩ := hp2
    have hc0s : (assocFind k0 g.vertices).isSome = true := hc0
    have hc1s : (assocFind k1 g.vertices).isSome = true := hc1
    rcases h0 : assocFind k0 g.vertices with _ | v0
    · rw [h0] at hc0s
      cases hc0s
    · rcases h1 : assocFind k1 g.vertices with _ | v1
      · rw [h1] at hc1s
        cases hc1s
      · obtain ⟨g2, _, _, hok, hrest⟩ := addEdge_spec hwf d hne2 h0 h1
        exact ⟨g2, hok, hrest.2.2.2.2.2.2.2.2.2.2.2⟩
  | .getV k =>
    refine ⟨g, ?_, hwf⟩
    have hp2 : (assocFind k g.vertices).isSome = true := hp
    rcases h0 : assocFind k g.vertices with _ | v
    · rw [h0] at hp2
      cases hp2
    · simp [applyOp, getVertex, h0]
  | .getE k0 k1 =>
    refine ⟨g, ?_, hwf⟩
    have hp2 : (getEdge g k0 k1).isSome = true := hp
    rcases h0 : getEdge g k0 k1 with _ | eid
    · rw [h0] at hp2
      cases hp2
    · simp [applyOp, h0]
  | .getK vid =>
    refine ⟨g, ?_, hwf⟩
    have hp2 : (getKey g vid).isSome = true := hp
    rcases h0 : getKey g vid with _ | k
    · rw [h0] at hp2
      cases hp2
    · simp [applyOp, h0]
  | .remV k =>
    have hp2 : (assocFind k g.vertices).isSome = true := hp
    rcases h0 : assocFind k g.vertices with _ | vid
    · rw [h0] at hp2
      cases hp2
    · obtain ⟨vtx, hvtx⟩ : ∃ vtx, assocFind vid g.vheap = some vtx := by
        have hsome := hwf.live_vertex k vid (assocFind_mem h0)
        rcases hf : assocFind vid g.vheap with _ | vtx
        · rw [hf] at hsome
          cases hsome
        · exact ⟨vtx, rfl⟩
      obtain ⟨g3, hok, hwf3, _⟩ := removeVertex_spec hwf h0 hvtx
      exact ⟨g3, hok, hwf3⟩
  | .remE k0 k1 =>
    have hp2 : (getEdge g k0 k1).isSome = true := hp
    rcases h0 : getEdge g k0 k1 with _ | eid
    · rw [h0] at hp2
      cases hp2
    · obtain ⟨hne, v0, v1, vtx0, i, hf0, hf1, hf2, hf3, hf4⟩ := getEdge_inv h0
      obtain ⟨g2, e, hok, hwf2, _⟩ := removeEdge_spec hwf hne hf0 hf1 hf2 hf3 hf4
      exact ⟨g2, hok, hwf2⟩

theorem reachable_wf {g : Graph} (hr : Reachable g) : WF g := by
  induction hr with
  | empty => exact WF_empty
  | step hr hp happly ih =>
    rename_i g0 g1 op
    obtain ⟨g2, hok, hwf2⟩ := applyOp_ok_of_precond ih hp
    rw [happly] at hok
    injection hok with hok
    rw [hok]
    exact hwf2

/-! ### Reachability of the concrete example states -/

theorem reachable_eg1 : Reachable eg1 :=
  @Reachable.step emptyGraph eg1 (Op.addV 0 10) Reachable.empty rfl rfl

theorem reachable_eg2 : Reachable eg2 :=
  @Reachable.step eg1 eg2 (Op.addV 1 11) reachable_eg1 rfl rfl

theorem reachable_eg3 : Reachable eg3 :=
  @Reachable.step eg2 eg3 (Op.addE 0 1 100) reachable_eg2 (by decide) rfl

theorem reachable_eg4 : Reachable eg4 :=
  @Reachable.step eg3 eg4 (Op.addE 0 1 200) reachable_eg3 (by decide) rfl

theorem reachable_eg5 : Reachable eg5 :=
  @Reachable.step eg2 eg5 (Op.addV 2 12) reachable_eg2 (by decide) rfl

theorem reachable_eg6 : Reachable eg6 :=
  @Reachable.step (okOr (addEdge eg5 0 1 100)) eg6 (Op.addE 1 2 101)
    (@Reachable.step eg5 (okOr (addEdge eg5 0 1 100)) (Op.addE 0 1 100) reachable_eg5
      (by decide) rfl)
    (by decide) rfl

/-! ### Claim theorems -/

theorem foldAdd_size (ks : List (Nat × Nat)) :
    ∀ g, WF g → (∀ p ∈ ks, mapContains p.1 g.vertices = false) →
      (ks.map Prod.fst).Nodup →
      WF (ks.foldl (fun h p => addVertex h p.1 p.2) g) ∧
      getSize (ks.foldl (fun h p => addVertex h p.1 p.2) g) = getSize g + ks.length ∧
      (∀ q, mapContains q (ks.foldl (fun h p => addVertex h p.1 p.2) g).vertices
        = (decide (q ∈ ks.map Prod.fst) || mapContains q g.vertices)) := by
  induction ks with
  | nil =>
    intro g hwf _ _
    exact ⟨hwf, by simp [getSize], fun q => by simp⟩
  | cons p rest ih =>
    intro g hwf hfresh hnd
    simp only [List.foldl_cons]
    have hfp : mapContains p.1 g.vertices = false := hfresh p (List.mem_cons_self p rest)
    have hwf1 := WF_addVertex hwf p.1 p.2 hfp
    have hcontains1 : ∀ q, mapContains q (addVertex g p.1 p.2).vertices
        = ((q == p.1) || mapContains q g.vertices) := by
      intro q
      rw [addVertex_fresh_def p.2 hfp]
      by_cases hq : p.1 = q
      · simp [mapContains, assocFind_cons, hq]
      · have hq2 : ¬(q = p.1) := fun hc => hq hc.symm
        simp [mapContains, assocFind_cons, hq, hq2]
    simp only [List.map_cons, List.nodup_cons] at hnd
    have hfresh1 : ∀ q ∈ rest, mapContains q.1 (addVertex g p.1 p.2).vertices = false := by
      intro q hq
      rw [hcontains1 q.1]
      have hne : q.1 ≠ p.1 := by
        intro hc
        exact hnd.1 (hc ▸ List.mem_map.mpr ⟨q, hq, rfl⟩)
      simp only [beq_eq_false_iff_ne, ne_eq, Bool.or_eq_false_iff]
      exact ⟨by simpa using hne, hfresh q (List.mem_cons_of_mem p hq)⟩
    obtain ⟨hwfF, hsizeF, hcontF⟩ := ih (addVertex g p.1 p.2) hwf1 hfresh1 hnd.2
    refine ⟨hwfF, ?_, ?_⟩
    · rw [hsizeF]
      have hone : getSize (addVertex g p.1 p.2) = getSize g + 1 := by
        rw [addVertex_fresh_def p.2 hfp]
        rfl
      rw [hone, List.length_cons]
      omega
    · intro q
      rw [hcontF q, hcontains1 q]
      by_cases h1 : q ∈ rest.map Prod.fst <;> by_cases h2 : q = p.1 <;>
        simp [h1, h2]

/-- C6: for every reachable state (any sequence of public operations whose
preconditions hold), `getSize` equals the number of entries in the
key-to-vertex map; consequently, after a sequence consisting only of
`addVertex` calls with pairwise distinct keys starting from the empty
graph, `getSize` equals the number of adds. -/
theorem claim_C6 (g : Graph) (ks : List (Nat × Nat)) (hr : Reachable g)
    (hnd : (ks.map Prod.fst).Nodup) :
    getSize g = g.vertices.length ∧
    getSize (ks.foldl (fun h p => addVertex h p.1 p.2) emptyGraph) = ks.length := by
  refine ⟨(reachable_wf hr).size_eq, ?_⟩
  obtain ⟨_, hsize, _⟩ := foldAdd_size ks emptyGraph WF_empty (fun p _ => rfl) hnd
  rw [hsize]
  simp [getSize, emptyGraph]

/-- Witness for C6 at a concrete reachable graph and a concrete
distinct-key add sequence. -/
theorem claim_C6_witness :
    ([((5 : Nat), (1 : Nat)), (7, 2), (9, 3)].map Prod.fst).Nodup ∧
    (getSize eg3 = eg3.vertices.length ∧
      getSize ([((5 : Nat), (1 : Nat)), (7, 2), (9, 3)].foldl
        (fun h p => addVertex h p.1 p.2) emptyGraph) = 3) :=
  ⟨by decide, claim_C6 eg3 [(5, 1), (7, 2), (9, 3)] reachable_eg3 (by decide)⟩

/-- C7: `addEdge(k, k, payload)` on any state fails the key-inequality
assertion immediately, carrying the unmutated starting state; and no
reachable state contains an edge whose two incident-vertex references
denote the same vertex (no self-loops). -/
theorem claim_C7 (g : Graph) (hr : Reachable g) :
    (∀ k d, addEdge g k k d = .error g) ∧
    (∀ eid e, assocFind eid g.eheap = some e → e.v0 ≠ e.v1) := by
  refine ⟨?_, (reachable_wf hr).no_self⟩
  intro k d
  unfold addEdge
  rw [if_pos rfl]

/-- Witness for C7 at a concrete reachable graph. -/
theorem claim_C7_witness :
    (∀ k d, addEdge eg4 k k d = .error eg4) ∧
    (∀ eid e, assocFind eid eg4.eheap = some e → e.v0 ≠ e.v1) :=
  claim_C7 eg4 reachable_eg4

/-- C8: in every reachable state, for every key `k` present in the map,
`getKey (getVertex k)` returns `k`: the reverse identity scan finds
exactly the entry that stores the vertex. -/
theorem claim_C8 (g : Graph) (hr : Reachable g) (k vid : Nat)
    (h : getVertex g k = some vid) : getKey g vid = some k := by
  have hwf := reachable_wf hr
  unfold getVertex at h
  unfold getKey
  rw [find?_snd_eq hwf.vids_nodup (assocFind_mem h)]
  rfl

/-- Witness for C8 at a concrete reachable graph. -/
theorem claim_C8_witness :
    getVertex eg2 1 = some 1 ∧ getKey eg2 1 = some 1 :=
  ⟨by decide, claim_C8 eg2 reachable_eg2 1 1 (by decide)⟩

/-- C9: calling `addVertex` with a key that is already present leaves the
key-to-vertex mapping and the vertex heap entirely unchanged (the new
vertex object is dropped, its payload unreachable), yet still increments
`getSize`, so afterwards `getSize` is strictly greater than the number of
map entries. -/
theorem claim_C9 (g : Graph) (k d : Nat)
    (hk : mapContains k g.vertices = true)
    (hsz : g.size = g.vertices.length) :
    (addVertex g k d).vertices = g.vertices ∧
    (addVertex g k d).vheap = g.vheap ∧
    getSize (addVertex g k d) = getSize g + 1 ∧
    (addVertex g k d).vertices.length < getSize (addVertex g k d) := by
  rw [addVertex_dup_def d hk]
  refine ⟨rfl, rfl, rfl, ?_⟩
  show g.vertices.length < g.size + 1
  omega

/-- Witness for C9: a duplicate-key `addVertex` on the one-vertex graph. -/
theorem claim_C9_witness :
    mapContains 0 eg1.vertices = true ∧ eg1.size = eg1.vertices.length ∧
    ((addVertex eg1 0 99).vertices = eg1.vertices ∧
      (addVertex eg1 0 99).vheap = eg1.vheap ∧
      getSize (addVertex eg1 0 99) = getSize eg1 + 1 ∧
      (addVertex eg1 0 99).vertices.length < getSize (addVertex eg1 0 99)) :=
  ⟨by decide, by decide, claim_C9 eg1 0 99 (by decide) (by decide)⟩

/-- Counterexample for C5 as stated: from the reachable one-vertex state
`eg1` (which satisfies all five invariants, in particular size = number
of entries), the public operation `addVertex 0 1` (key 0 already present)
runs to completion without failing, mutates the state, and does NOT
re-establish invariant 4: afterwards the count differs from the number of
map entries. -/
theorem claim_C5_counterexample :
    eg1.size = eg1.vertices.length ∧
    applyOp eg1 (Op.addV 0 1) = .ok (addVertex eg1 0 1) ∧
    addVertex eg1 0 1 ≠ eg1 ∧
    (addVertex eg1 0 1).size ≠ (addVertex eg1 0 1).vertices.length := by
  refine ⟨by decide, rfl, by decide, by decide⟩

/-- C5 (amended): on a state satisfying the five invariants, every public
operation that fails does so with the state exactly as before the call
(the error carries the unchanged state), and every public operation whose
precondition holds runs to completion re-establishing all invariants.
`addVertex` with an already-present key (a precondition violation) is the
one operation that completes without failing while breaking invariant 4
(see the counterexample). -/
theorem claim_C5 (g : Graph) (op : Op) (hwf : WF g) :
    (∀ s, applyOp g op = .error s → s = g) ∧
    (precondOk g op = true → ∃ g2, applyOp g op = .ok g2 ∧ WF g2) :=
  ⟨fun _ h => applyOp_error_eq hwf op h, fun hp => applyOp_ok_of_precond hwf hp⟩

/-- Witness for C5 at a concrete state and operation. -/
theorem claim_C5_witness :
    (∀ s, applyOp eg3 (Op.remE 0 1) = .error s → s = eg3) ∧
    (precondOk eg3 (Op.remE 0 1) = true →
      ∃ g2, applyOp eg3 (Op.remE 0 1) = .ok g2 ∧ WF g2) :=
  claim_C5 eg3 (Op.remE 0 1) (reachable_wf reachable_eg3)

/-- C1: in every reachable state every edge object is listed by exactly
zero or exactly two vertices — namely once by each of its two (distinct)
incident vertices — never by exactly one; moreover `addEdge` lists the
new edge on both incident vertices within the one call, `removeEdge`
delists the removed edge from every vertex within the one call, and
`removeVertex` delists every edge incident to the removed vertex from
every vertex within the one call. -/
theorem claim_C1 (g : Graph) (hr : Reachable g) :
    (∀ eid e, assocFind eid g.eheap = some e →
      (e.v0 ≠ e.v1 ∧ occ g e.v0 eid = 1 ∧ occ g e.v1 eid = 1 ∧
        ∀ w, w ≠ e.v0 → w ≠ e.v1 → occ g w eid = 0) ∨
      (∀ w, occ g w eid = 0)) ∧
    (∀ k0 k1 d g', precondOk g (Op.addE k0 k1 d) = true →
      applyOp g (Op.addE k0 k1 d) = .ok g' →
      ∃ e, assocFind g.nextId g'.eheap = some e ∧
        occ g' e.v0 g.nextId = 1 ∧ occ g' e.v1 g.nextId = 1) ∧
    (∀ k0 k1 eid g', getEdge g k0 k1 = some eid →
      applyOp g (Op.remE k0 k1) = .ok g' → ∀ w, occ g' w eid = 0) ∧
    (∀ k vid g', assocFind k g.vertices = some vid →
      applyOp g (Op.remV k) = .ok g' →
      ∀ eid e, assocFind eid g'.eheap = some e → e.v0 = vid ∨ e.v1 = vid →
        ∀ w, occ g' w eid = 0) := by
  have hwf := reachable_wf hr
  refine ⟨?_, ?_, ?_, ?_⟩
  · intro eid e hfind
    rcases hwf.two_sided eid e hfind with ⟨_, _, ho0, ho1, hoth⟩ | hdet
    · exact Or.inl ⟨hwf.no_self eid e hfind, ho0, ho1, hoth⟩
    · exact Or.inr hdet
  · intro k0 k1 d g' hp hok
    have hp2 : ((!(k0 == k1)) && mapContains k0 g.vertices && mapContains k1 g.vertices)
        = true := hp
    simp only [Bool.and_eq_true, Bool.not_eq_true', beq_eq_false_iff_ne, ne_eq] at hp2
    obtain ⟨⟨hne2, hc0⟩, hc1⟩ := hp2
    have hc0s : (assocFind k0 g.vertices).isSome = true := hc0
    have hc1s : (assocFind k1 g.vertices).isSome = true := hc1
    rcases h0 : assocFind k0 g.vertices with _ | v0
    · rw [h0] at hc0s
      cases hc0s
    · rcases h1 : assocFind k1 g.vertices with _ | v1
      · rw [h1] at hc1s
        cases hc1s
      · obtain ⟨g2, vtx0, vtx1, hok2, hvtx0, hvtx1, hvne, _, _, _, heheap2,
          hfindv0, hfindv1, _, _, _⟩ := addEdge_spec hwf d hne2 h0 h1
        have hg2 : g2 = g' := by
          have happ : applyOp g (Op.addE k0 k1 d) = addEdge g k0 k1 d := rfl
          rw [happ, hok2] at hok
          injection hok
        subst hg2
        refine ⟨{ v0 := v0, v1 := v1, data := d }, ?_, ?_, ?_⟩
        · rw [heheap2, assocFind_cons, if_pos rfl]
        · show occ g2 v0 g.nextId = 1
          rw [occ_of_find hfindv0]
          have hfresh : vtx0.edges.count g.nextId = 0 :=
            List.count_eq_zero.mpr (hwf.fresh_eid_not_listed hvtx0)
          rw [count_append_single, hfresh, if_pos rfl]
        · show occ g2 v1 g.nextId = 1
          rw [occ_of_find hfindv1]
          have hfresh : vtx1.edges.count g.nextId = 0 :=
            List.count_eq_zero.mpr (hwf.fresh_eid_not_listed hvtx1)
          rw [count_append_single, hfresh, if_pos rfl]
  · intro k0 k1 eid g' hget hok
    obtain ⟨hne, v0, v1, vtx0, i, h0, h1, h2, h3, h4⟩ := getEdge_inv hget
    obtain ⟨g2, e, hok2, _, _, _, _, _, _, hocc0, _⟩ := removeEdge_spec hwf hne h0 h1 h2 h3 h4
    have hg2 : g2 = g' := by
      have happ : applyOp g (Op.remE k0 k1) = removeEdge g k0 k1 := rfl
      rw [happ, hok2] at hok
      injection hok
    subst hg2
    exact hocc0
  · intro k vid g' hkey hok
    obtain ⟨vtx, hvtx⟩ : ∃ vtx, assocFind vid g.vheap = some vtx := by
      have hsome := hwf.live_vertex k vid (assocFind_mem hkey)
      rcases hf : assocFind vid g.vheap with _ | vtx
      · rw [hf] at hsome
        cases hsome
      · exact ⟨vtx, rfl⟩
    obtain ⟨g3, hok3, hwf3, _, _, _, _, _, _, _, hnotlive⟩ := removeVertex_spec hwf hkey hvtx
    have hg3 : g3 = g' := by
      have happ : applyOp g (Op.remV k) = removeVertex g k := rfl
      rw [happ, hok3] at hok
      injection hok
    subst hg3
    intro eid e hfind hend
    rcases hwf3.two_sided eid e hfind with ⟨hl0, hl1, _, _, _⟩ | hdet
    · exfalso
      rcases hend with hend | hend
      · rw [hend] at hl0
        rw [hl0] at hnotlive
        cases hnotlive
      · rw [hend] at hl1
        rw [hl1] at hnotlive
        cases hnotlive
    · exact hdet

/-- Witness for C1 at a concrete reachable graph. -/
theorem claim_C1_witness :
    (∀ eid e, assocFind eid eg4.eheap = some e →
      (e.v0 ≠ e.v1 ∧ occ eg4 e.v0 eid = 1 ∧ occ eg4 e.v1 eid = 1 ∧
        ∀ w, w ≠ e.v0 → w ≠ e.v1 → occ eg4 w eid = 0) ∨
      (∀ w, occ eg4 w eid = 0)) ∧
    (∀ k0 k1 d g', precondOk eg4 (Op.addE k0 k1 d) = true →
      applyOp eg4 (Op.addE k0 k1 d) = .ok g' →
      ∃ e, assocFind eg4.nextId g'.eheap = some e ∧
        occ g' e.v0 eg4.nextId = 1 ∧ occ g' e.v1 eg4.nextId = 1) ∧
    (∀ k0 k1 eid g', getEdge eg4 k0 k1 = some eid →
      applyOp eg4 (Op.remE k0 k1) = .ok g' → ∀ w, occ g' w eid = 0) ∧
    (∀ k vid g', assocFind k eg4.vertices = some vid →
      applyOp eg4 (Op.remV k) = .ok g' →
      ∀ eid e, assocFind eid g'.eheap = some e → e.v0 = vid ∨ e.v1 = vid →
        ∀ w, occ g' w eid = 0) :=
  claim_C1 eg4 reachable_eg4

/-- C3: in every reachable state, removing a present key succeeds; the
key then no longer resolves, `getSize` drops by exactly one, the number
of distinct edge objects in the graph drops by exactly the removed
vertex's prior degree (its edge-vector length, counting parallel edges
individually), and no remaining vertex's edge collection lists any edge
incident to the removed vertex. -/
theorem claim_C3 (g : Graph) (hr : Reachable g) (k vid : Nat) (vtx : Vertex)
    (hk : assocFind k g.vertices = some vid)
    (hv : assocFind vid g.vheap = some vtx) :
    ∃ g3, removeVertex g k = .ok g3 ∧
      assocFind k g3.vertices = none ∧
      getSize g3 + 1 = getSize g ∧
      attachedCount g3 + vtx.edges.length = attachedCount g ∧
      (∀ w wtx, assocFind w g3.vheap = some wtx → ∀ eid ∈ wtx.edges,
        ∀ e, assocFind eid g3.eheap = some e → e.v0 ≠ vid ∧ e.v1 ≠ vid) := by
  have hwf := reachable_wf hr
  obtain ⟨g3, hok, hwf3, hknone, _, hsize, _, _, _, hattach, hnotlive⟩ :=
    removeVertex_spec hwf hk hv
  refine ⟨g3, hok, hknone, hsize, hattach, ?_⟩
  intro w wtx hfindw eid hmem e hfinde
  obtain ⟨hl0, hl1, _, _, _⟩ := attached_of_listed hwf3 hfindw hmem hfinde
  constructor
  · intro hc
    rw [hc] at hl0
    rw [hl0] at hnotlive
    cases hnotlive
  · intro hc
    rw [hc] at hl1
    rw [hl1] at hnotlive
    cases hnotlive

/-- Witness for C3: removing key 0 from the two-parallel-edge graph. -/
theorem claim_C3_witness :
    assocFind 0 eg4.vertices = some 0 ∧
    (∃ g3, removeVertex eg4 0 = .ok g3 ∧
      assocFind 0 g3.vertices = none ∧
      getSize g3 + 1 = getSize eg4 ∧
      attachedCount g3 + (({ edges := [2, 3], data := 10 } : Vertex)).edges.length
        = attachedCount eg4 ∧
      (∀ w wtx, assocFind w g3.vheap = some wtx → ∀ eid ∈ wtx.edges,
        ∀ e, assocFind eid g3.eheap = some e → e.v0 ≠ 0 ∧ e.v1 ≠ 0)) :=
  ⟨by decide, claim_C3 eg4 reachable_eg4 0 0 { edges := [2, 3], data := 10 }
    (by decide) (by decide)⟩

/-- C4: in every reachable state holding parallel edges between the
distinct existing keys `k0` and `k1`, `removeEdge k0 k1` removes exactly
the first matching edge in `k0`'s vertex's collection order — the same
edge object `getEdge k0 k1` returns — deleting that one object from both
endpoints' collections, while the occurrence counts of every other edge
(in particular the remaining parallel ones, which stay listed once on
each of their two endpoints) are unchanged everywhere. -/
theorem claim_C4 (g : Graph) (hr : Reachable g) (k0 k1 v0 v1 i eid eid2 : Nat) (vtx0 : Vertex)
    (hne : k0 ≠ k1)
    (h0 : assocFind k0 g.vertices = some v0) (h1 : assocFind k1 g.vertices = some v1)
    (hvtx0 : assocFind v0 g.vheap = some vtx0)
    (hscan : scanIdx (fun j => edgeTouches g j v1) vtx0.edges = some i)
    (hget : vtx0.edges[i]? = some eid)
    (hpar : eid2 ∈ vtx0.edges) (hpar2 : eid2 ≠ eid) :
    ∃ g2 e e2, removeEdge g k0 k1 = .ok g2 ∧
      getEdge g k0 k1 = some eid ∧
      assocFind eid g.eheap = some e ∧
      ((e.v0 = v0 ∧ e.v1 = v1) ∨ (e.v0 = v1 ∧ e.v1 = v0)) ∧
      (∀ w, occ g2 w eid = 0) ∧
      (∀ j, j ≠ eid → ∀ w, occ g2 w j = occ g w j) ∧
      assocFind eid2 g.eheap = some e2 ∧
      occ g2 e2.v0 eid2 = 1 ∧ occ g2 e2.v1 eid2 = 1 := by
  have hwf := reachable_wf hr
  obtain ⟨g2, e, hok, _, _, _, _, _, _, hocc_eid, hocc_other, _, he, hend⟩ :=
    removeEdge_spec hwf hne h0 h1 hvtx0 hscan hget
  obtain ⟨e2, he2, _⟩ := hwf.listed_wf v0 vtx0 hvtx0 eid2 hpar
  obtain ⟨_, _, ho20, ho21, _⟩ := attached_of_listed hwf hvtx0 hpar he2
  have hgete : getEdge g k0 k1 = some eid := by
    rw [getEdge_eq hne h0 h1 hvtx0, hscan]
    simpa using hget
  refine ⟨g2, e, e2, hok, hgete, he, hend, hocc_eid, hocc_other, he2, ?_, ?_⟩
  · rw [hocc_other eid2 hpar2]
    exact ho20
  · rw [hocc_other eid2 hpar2]
    exact ho21

/-- Witness for C4: `eg4` holds two parallel edges (ids 2 and 3) between
keys 0 and 1; removing once removes edge 2 (the first in collection
order) and leaves edge 3 on both sides. -/
theorem claim_C4_witness :
    (0 : Nat) ≠ 1 ∧
    assocFind 0 eg4.vertices = some 0 ∧ assocFind 1 eg4.vertices = some 1 ∧
    assocFind 0 eg4.vheap = some { edges := [2, 3], data := 10 } ∧
    scanIdx (fun j => edgeTouches eg4 j 1) (([2, 3] : List Nat)) = some 0 ∧
    (([2, 3] : List Nat))[(0 : Nat)]? = some 2 ∧
    (3 : Nat) ∈ ([2, 3] : List Nat) ∧ (3 : Nat) ≠ 2 ∧
    (∃ g2 e e2, removeEdge eg4 0 1 = .ok g2 ∧
      getEdge eg4 0 1 = some 2 ∧
      assocFind 2 eg4.eheap = some e ∧
      ((e.v0 = 0 ∧ e.v1 = 1) ∨ (e.v0 = 1 ∧ e.v1 = 0)) ∧
      (∀ w, occ g2 w 2 = 0) ∧
      (∀ j, j ≠ 2 → ∀ w, occ g2 w j = occ eg4 w j) ∧
      assocFind 3 eg4.eheap = some e2 ∧
      occ g2 e2.v0 3 = 1 ∧ occ g2 e2.v1 3 = 1) :=
  ⟨by decide, by decide, by decide, by decide, by decide, by decide, by decide, by decide,
    claim_C4 eg4 reachable_eg4 0 1 0 1 0 2 3 { edges := [2, 3], data := 10 }
      (by decide) (by decide) (by decide) (by decide) (by decide) (by decide)
      (by decide) (by decide)⟩

/-- C10: in every reachable state the second, identity-based linear
search of `removeEdge` (in `key1`'s vertex's collection) and the
neighbour-side search inside `removeVertex`'s detachment loop always
succeed, so neither function ever writes through an end iterator: both
removals run to completion whenever their preconditions hold, and every
edge listed by one vertex is listed by both of its incident vertices. -/
theorem claim_C10 (g : Graph) (hr : Reachable g) :
    (∀ k0 k1, (getEdge g k0 k1).isSome = true → ∃ g2, removeEdge g k0 k1 = .ok g2) ∧
    (∀ k, mapContains k g.vertices = true → ∃ g3, removeVertex g k = .ok g3) ∧
    (∀ vid vtx eid e, assocFind vid g.vheap = some vtx → eid ∈ vtx.edges →
      assocFind eid g.eheap = some e →
      ∃ wtx0 wtx1, assocFind e.v0 g.vheap = some wtx0 ∧ eid ∈ wtx0.edges ∧
        assocFind e.v1 g.vheap = some wtx1 ∧ eid ∈ wtx1.edges) := by
  have hwf := reachable_wf hr
  refine ⟨?_, ?_, ?_⟩
  · intro k0 k1 hsome
    rcases hge : getEdge g k0 k1 with _ | eid
    · rw [hge] at hsome
      cases hsome
    · obtain ⟨hne, v0, v1, vtx0, i, h0, h1, h2, h3, h4⟩ := getEdge_inv hge
      obtain ⟨g2, e, hok, _⟩ := removeEdge_spec hwf hne h0 h1 h2 h3 h4
      exact ⟨g2, hok⟩
  · intro k hsome
    have hs : (assocFind k g.vertices).isSome = true := hsome
    rcases hk : assocFind k g.vertices with _ | vid
    · rw [hk] at hs
      cases hs
    · obtain ⟨vtx, hvtx⟩ : ∃ vtx, assocFind vid g.vheap = some vtx := by
        have hlv := hwf.live_vertex k vid (assocFind_mem hk)
        rcases hf : assocFind vid g.vheap with _ | vtx
        · rw [hf] at hlv
          cases hlv
        · exact ⟨vtx, rfl⟩
      obtain ⟨g3, hok, _⟩ := removeVertex_spec hwf hk hvtx
      exact ⟨g3, hok⟩
  · intro vid vtx eid e hfind hmem hfinde
    obtain ⟨hl0, hl1, ho0, ho1, _⟩ := attached_of_listed hwf hfind hmem hfinde
    obtain ⟨wtx0, hwtx0⟩ := hwf.live_find hl0
    obtain ⟨wtx1, hwtx1⟩ := hwf.live_find hl1
    rw [occ_of_find hwtx0] at ho0
    rw [occ_of_find hwtx1] at ho1
    exact ⟨wtx0, wtx1, hwtx0, List.count_pos_iff.mp (by omega), hwtx1,
      List.count_pos_iff.mp (by omega)⟩

/-- Witness for C10 at a concrete reachable graph. -/
theorem claim_C10_witness :
    (∀ k0 k1, (getEdge eg6 k0 k1).isSome = true → ∃ g2, removeEdge eg6 k0 k1 = .ok g2) ∧
    (∀ k, mapContains k eg6.vertices = true → ∃ g3, removeVertex eg6 k = .ok g3) ∧
    (∀ vid vtx eid e, assocFind vid eg6.vheap = some vtx → eid ∈ vtx.edges →
      assocFind eid eg6.eheap = some e →
      ∃ wtx0 wtx1, assocFind e.v0 eg6.vheap = some wtx0 ∧ eid ∈ wtx0.edges ∧
        assocFind e.v1 eg6.vheap = some wtx1 ∧ eid ∈ wtx1.edges) :=
  claim_C10 eg6 reachable_eg6

theorem scanIdx_congr {p q : Nat → Bool} :
    ∀ {l : List Nat}, (∀ x ∈ l, p x = q x) → scanIdx p l = scanIdx q l := by
  intro l
  induction l with
  | nil => intro _; rfl
  | cons a rest ih =>
    intro hpq
    have ha := hpq a (List.mem_cons_self a rest)
    by_cases hp : p a
    · rw [scanIdx_cons_pos hp, scanIdx_cons_pos (by rw [← ha]; exact hp)]
    · rw [scanIdx_cons_neg hp, scanIdx_cons_neg (by rw [← ha]; exact hp),
        ih (fun x hx => hpq x (List.mem_cons_of_mem a hx))]

/-- Counterexample for C2 as stated: in `eg4` the call
`addEdge 0 1 200` was made (it produced `eg4` from `eg3`), yet
`getEdge 0 1` returns the first parallel edge in collection order, whose
payload is 100, not the payload 200 passed to that `addEdge` call. -/
theorem claim_C2_counterexample :
    addEdge eg3 0 1 200 = .ok eg4 ∧
    (getEdge eg4 0 1).bind (fun eid => (assocFind eid eg4.eheap).map Edge.data)
      = some 100 ∧
    (getEdge eg4 1 0).bind (fun eid => (assocFind eid eg4.eheap).map Edge.data)
      = some 100 ∧
    (100 : Nat) ≠ 200 := by
  refine ⟨rfl, by decide, by decide, by decide⟩

/-- C2 (amended): in every reachable state, after a successful
`addEdge k0 k1 payload` (distinct existing keys), both `getEdge k0 k1`
and `getEdge k1 k0` succeed and return an edge whose two incident
vertices are exactly the vertices stored at `k0` and `k1` (`getEdge`
scans the first key's vertex's collection linearly and returns the first
match in collection order); the returned edge's payload equals the
payload passed to that `addEdge` call provided no edge between `k0` and
`k1` existed before the call — with pre-existing parallel edges the
first match in collection order is returned instead. -/
theorem claim_C2 (g : Graph) (hr : Reachable g) (k0 k1 d v0 v1 : Nat) (g' : Graph)
    (hne : k0 ≠ k1)
    (h0 : assocFind k0 g.vertices = some v0) (h1 : assocFind k1 g.vertices = some v1)
    (hok : addEdge g k0 k1 d = .ok g') :
    (∃ eid0 e0, getEdge g' k0 k1 = some eid0 ∧ assocFind eid0 g'.eheap = some e0 ∧
      ((e0.v0 = v0 ∧ e0.v1 = v1) ∨ (e0.v0 = v1 ∧ e0.v1 = v0))) ∧
    (∃ eid1 e1, getEdge g' k1 k0 = some eid1 ∧ assocFind eid1 g'.eheap = some e1 ∧
      ((e1.v0 = v0 ∧ e1.v1 = v1) ∨ (e1.v0 = v1 ∧ e1.v1 = v0))) ∧
    (getEdge g k0 k1 = none →
      getEdge g' k0 k1 = some g.nextId ∧ getEdge g' k1 k0 = some g.nextId ∧
      assocFind g.nextId g'.eheap = some { v0 := v0, v1 := v1, data := d }) := by
  have hwf := reachable_wf hr
  obtain ⟨g2, vtx0, vtx1, hok2, hvtx0, hvtx1, hvne, hverts, _, _, heheap,
    hfv0, hfv1, _, _, _⟩ := addEdge_spec hwf d hne h0 h1
  rw [hok2] at hok
  injection hok with hok
  subst hok
  have htouch_pres : ∀ x tgt vX vtxX, assocFind vX g.vheap = some vtxX → x ∈ vtxX.edges →
      edgeTouches g2 x tgt = edgeTouches g x tgt := by
    intro x tgt vX vtxX hfindX hmemX
    obtain ⟨ex, hex, _⟩ := hwf.listed_wf vX vtxX hfindX x hmemX
    have hlt := hwf.eid_lt_of_find hex
    have hxe : assocFind x g2.eheap = assocFind x g.eheap := by
      rw [heheap, assocFind_cons, if_neg (by omega : ¬g.nextId = x)]
    unfold edgeTouches
    rw [hxe]
  have hnew_find : assocFind g.nextId g2.eheap = some { v0 := v0, v1 := v1, data := d } := by
    rw [heheap, assocFind_cons, if_pos rfl]
  have htouch_new : ∀ tgt, tgt = v0 ∨ tgt = v1 → edgeTouches g2 g.nextId tgt = true := by
    intro tgt htgt
    unfold edgeTouches
    rw [hnew_find]
    rcases htgt with rfl | rfl
    · simp
    · simp
  have main : ∀ kA kB vA vB vtxA, kA ≠ kB →
      assocFind kA g.vertices = some vA → assocFind kB g.vertices = some vB →
      assocFind vA g.vheap = some vtxA →
      assocFind vA g2.vheap = some { vtxA with edges := vtxA.edges ++ [g.nextId] } →
      ((vA = v0 ∧ vB = v1) ∨ (vA = v1 ∧ vB = v0)) → vA ≠ vB →
      (∃ eid0 e0, getEdge g2 kA kB = some eid0 ∧ assocFind eid0 g2.eheap = some e0 ∧
        ((e0.v0 = vA ∧ e0.v1 = vB) ∨ (e0.v0 = vB ∧ e0.v1 = vA))) ∧
      (scanIdx (fun j => edgeTouches g j vB) vtxA.edges = none →
        getEdge g2 kA kB = some g.nextId) := by
    intro kA kB vA vB vtxA hneAB hfA hfB hvtxA hvtxA2 hAB hvABne
    have hfA2 : assocFind kA g2.vertices = some vA := by
      rw [hverts]
      exact hfA
    have hfB2 : assocFind kB g2.vertices = some vB := by
      rw [hverts]
      exact hfB
    have hgete : getEdge g2 kA kB = (scanIdx (fun j => edgeTouches g2 j vB)
        (vtxA.edges ++ [g.nextId])).bind (fun i => (vtxA.edges ++ [g.nextId])[i]?) := by
      have hg := getEdge_eq (g := g2) hneAB hfA2 hfB2 hvtxA2
      simpa using hg
    have hcongr : scanIdx (fun j => edgeTouches g2 j vB) vtxA.edges
        = scanIdx (fun j => edgeTouches g j vB) vtxA.edges :=
      scanIdx_congr (fun x hx => htouch_pres x vB vA vtxA hvtxA hx)
    have hnewB : edgeTouches g2 g.nextId vB = true := by
      apply htouch_new
      rcases hAB with ⟨_, hb⟩ | ⟨_, hb⟩
      · exact Or.inr hb
      · exact Or.inl hb
    rw [scanIdx_append_single, hcongr] at hgete
    constructor
    · rcases hscanA : scanIdx (fun j => edgeTouches g j vB) vtxA.edges with _ | i
      · rw [hscanA] at hgete
        simp only [hnewB, if_true] at hgete
        simp only [Option.some_bind, List.getElem?_concat_length] at hgete
        refine ⟨g.nextId, { v0 := v0, v1 := v1, data := d }, hgete, hnew_find, ?_⟩
        rcases hAB with ⟨ha, hb⟩ | ⟨ha, hb⟩
        · exact Or.inl ⟨ha.symm, hb.symm⟩
        · exact Or.inr ⟨hb.symm, ha.symm⟩
      · rw [hscanA] at hgete
        simp only [Option.some_bind] at hgete
        obtain ⟨x, hxget, hpx, _⟩ := scanIdx_some hscanA
        have hi : i < vtxA.edges.length := by
          obtain ⟨hlt, _⟩ := List.getElem?_eq_some.mp hxget
          exact hlt
        rw [List.getElem?_append_left hi, hxget] at hgete
        have hxmem : x ∈ vtxA.edges := mem_of_getElemOpt hxget
        obtain ⟨ex, hex, htx⟩ := edgeTouches_true hpx
        have hendx := endpoints_of_touch hwf hvtxA hxmem hex htx hvABne
        have hxlt := hwf.eid_lt_of_find hex
        have hex2 : assocFind x g2.eheap = some ex := by
          rw [heheap, assocFind_cons, if_neg (by omega : ¬g.nextId = x)]
          exact hex
        exact ⟨x, ex, hgete, hex2, hendx⟩
    · intro hscanA
      rw [hscanA] at hgete
      simp only [hnewB, if_true] at hgete
      simp only [Option.some_bind, List.getElem?_concat_length] at hgete
      exact hgete
  have hmain0 := main k0 k1 v0 v1 vtx0 hne h0 h1 hvtx0 hfv0 (Or.inl ⟨rfl, rfl⟩) hvne
  have hmain1 := main k1 k0 v1 v0 vtx1 (fun hc => hne hc.symm) h1 h0 hvtx1 hfv1
    (Or.inr ⟨rfl, rfl⟩) (fun hc => hvne hc.symm)
  refine ⟨hmain0.1, ?_, ?_⟩
  · obtain ⟨eid1, e1, hg1, hf1, hd1⟩ := hmain1.1
    exact ⟨eid1, e1, hg1, hf1, hd1.symm⟩
  intro hnone
  have hg_eq := getEdge_eq hne h0 h1 hvtx0
  rw [hg_eq] at hnone
  have hscan0 : scanIdx (fun j => edgeTouches g j v1) vtx0.edges = none := by
    rcases hs : scanIdx (fun j => edgeTouches g j v1) vtx0.edges with _ | i
    · rfl
    · exfalso
      rw [hs] at hnone
      obtain ⟨x, hxget, _, _⟩ := scanIdx_some hs
      simp only [Option.some_bind] at hnone
      rw [hnone] at hxget
      cases hxget
  have hscan1 : scanIdx (fun j => edgeTouches g j v0) vtx1.edges = none := by
    rcases hs1 : scanIdx (fun j => edgeTouches g j v0) vtx1.edges with _ | j
    · rfl
    · exfalso
      obtain ⟨x, hxget, hpx, _⟩ := scanIdx_some hs1
      have hxmem : x ∈ vtx1.edges := mem_of_getElemOpt hxget
      obtain ⟨ex, hex, htx⟩ := edgeTouches_true hpx
      have hendx := endpoints_of_touch hwf hvtx1 hxmem hex htx (fun hc => hvne hc.symm)
      obtain ⟨_, _, hox0, hox1, _⟩ := attached_of_listed hwf hvtx1 hxmem hex
      have hoccv0x : occ g v0 x = 1 := by
        rcases hendx with ⟨ha, hb⟩ | ⟨ha, hb⟩
        · rw [← hb]
          exact hox1
        · rw [← ha]
          exact hox0
      rw [occ_of_find hvtx0] at hoccv0x
      have hxmem0 : x ∈ vtx0.edges := List.count_pos_iff.mp (by omega)
      have htv1 : edgeTouches g x v1 = true := by
        apply edgeTouches_of_parts hex
        rcases hendx with ⟨ha, _⟩ | ⟨_, hb⟩
        · exact Or.inl ha
        · exact Or.inr hb
      have hsome := scanIdx_isSome_of_mem (p := fun j => edgeTouches g j v1) hxmem0 htv1
      rw [hscan0] at hsome
      cases hsome
  exact ⟨hmain0.2 hscan0, hmain1.2 hscan1, hnew_find⟩

/-- Witness for C2 (amended): adding the first edge between keys 0 and 1
of the two-vertex graph; both lookups return the new edge. -/
theorem claim_C2_witness :
    (0 : Nat) ≠ 1 ∧
    assocFind 0 eg2.vertices = some 0 ∧ assocFind 1 eg2.vertices = some 1 ∧
    addEdge eg2 0 1 100 = .ok eg3 ∧
    ((∃ eid0 e0, getEdge eg3 0 1 = some eid0 ∧ assocFind eid0 eg3.eheap = some e0 ∧
        ((e0.v0 = 0 ∧ e0.v1 = 1) ∨ (e0.v0 = 1 ∧ e0.v1 = 0))) ∧
      (∃ eid1 e1, getEdge eg3 1 0 = some eid1 ∧ assocFind eid1 eg3.eheap = some e1 ∧
        ((e1.v0 = 0 ∧ e1.v1 = 1) ∨ (e1.v0 = 1 ∧ e1.v1 = 0))) ∧
      (getEdge eg2 0 1 = none →
        getEdge eg3 0 1 = some eg2.nextId ∧ getEdge eg3 1 0 = some eg2.nextId ∧
        assocFind eg2.nextId eg3.eheap = some { v0 := 0, v1 := 1, data := 100 })) :=
  ⟨by decide, by decide, by decide, rfl,
    claim_C2 eg2 reachable_eg2 0 1 100 0 1 eg3 (by decide) (by decide) (by decide) rfl⟩

end GraphSpec
